import Mathlib

/-!
Verification of the constant-time primitives of `library/constant_time.c`
(mbedtls).  Machine integers of width `W` are modelled as natural numbers
below `2 ^ W`; unsigned wrap-around is written out with explicit `% 2 ^ W`.
Byte buffers are lists of naturals below 256.
-/

/-- Error code modelled from the spec: the *invalid padding* error of the RSA
module (`mbedtls/rsa.h` is not part of the sources; the spec only requires the
codes to be distinct and nonzero). -/
def MBEDTLS_ERR_RSA_INVALID_PADDING : ℤ := -0x4100

/-- Error code modelled from the spec: the *output too large* error of the RSA
module (header not in the sources). -/
def MBEDTLS_ERR_RSA_OUTPUT_TOO_LARGE : ℤ := -0x4300

/-- Error code modelled from the spec: the *bad input* error of the bignum
module (header not in the sources). -/
def MBEDTLS_ERR_MPI_BAD_INPUT_DATA : ℤ := -0x0004

/-- Constant modelled from the spec: the PKCS#1 v1.5 block type expected at
`input[1]`, `MBEDTLS_RSA_CRYPT = 2` (header not in the sources). -/
def MBEDTLS_RSA_CRYPT : ℕ := 2

/-- Shared body of `mbedtls_ct_uint_mask`, `mbedtls_ct_size_mask` and
`mbedtls_ct_mpi_uint_mask`, which are textually identical in the source up to
the integer width: `-((value | -value) >> (W-1))` on a `W`-bit unsigned type. -/
def ct_mask_word (W v : ℕ) : ℕ :=
  (2 ^ W - ((v ||| ((2 ^ W - v) % 2 ^ W)) >>> (W - 1))) % 2 ^ W

/-- `mbedtls_ct_uint_mask` from the source (width-`W` `unsigned`). -/
def mbedtls_ct_uint_mask (W v : ℕ) : ℕ := ct_mask_word W v

/-- `mbedtls_ct_size_mask` from the source (width-`W` `size_t`). -/
def mbedtls_ct_size_mask (W v : ℕ) : ℕ := ct_mask_word W v

/-- `mbedtls_ct_mpi_uint_mask` from the source (width-`W` `mbedtls_mpi_uint`). -/
def mbedtls_ct_mpi_uint_mask (W v : ℕ) : ℕ := ct_mask_word W v

/-- `mbedtls_ct_size_mask_lt` from the source: the sign bit of `x - y`
broadcast to a full mask. -/
def mbedtls_ct_size_mask_lt (W x y : ℕ) : ℕ :=
  let sub := ((2 ^ W + x) - y) % 2 ^ W
  let sub1 := sub >>> (W - 1)
  mbedtls_ct_size_mask W sub1

/-- `mbedtls_ct_size_gt` from the source: the sign bit of `y - x`. -/
def mbedtls_ct_size_gt (W x y : ℕ) : ℕ :=
  (((2 ^ W + y) - x) % 2 ^ W) >>> (W - 1)

/-- `mbedtls_ct_mpi_uint_lt` from the source: two-word less-than with the
XOR fix-up for operands whose top bits differ. -/
def mbedtls_ct_mpi_uint_lt (W x y : ℕ) : ℕ :=
  let cond := x ^^^ y
  let ret1 := (((2 ^ W + x) - y) % 2 ^ W) &&& (cond ^^^ (2 ^ W - 1))
  let ret2 := ret1 ||| (y &&& cond)
  ret2 >>> (W - 1)

/-- `mbedtls_ct_uint_if` from the source: `(mask & if1) | (~mask & if0)`. -/
def mbedtls_ct_uint_if (W condition if1 if0 : ℕ) : ℕ :=
  let mask := mbedtls_ct_uint_mask W condition
  (mask &&& if1) ||| ((mask ^^^ (2 ^ W - 1)) &&& if0)

/-- `mbedtls_ct_memcmp` from the source: OR-accumulate the XOR of each byte
pair over a full linear sweep. -/
def mbedtls_ct_memcmp (a b : List ℕ) : ℕ :=
  (List.zipWith (fun x y => x ^^^ y) a b).foldl (fun diff z => diff ||| z) 0

/-! ### Generic machine-word lemmas -/

lemma shiftTop {W x : ℕ} (hW : 0 < W) (hx : x < 2 ^ W) :
    x >>> (W - 1) = if 2 ^ (W - 1) ≤ x then 1 else 0 := by
  rw [Nat.shiftRight_eq_div_pow]
  have h2 : 2 ^ W = 2 ^ (W - 1) * 2 := by
    rw [← Nat.pow_succ]
    congr 1
    omega
  have hp : 0 < 2 ^ (W - 1) := Nat.two_pow_pos _
  rcases le_or_lt (2 ^ (W - 1)) x with h | h
  · rw [if_pos h]
    have h1 : 1 ≤ x / 2 ^ (W - 1) := (Nat.one_le_div_iff hp).2 h
    have h2' : x / 2 ^ (W - 1) < 2 := Nat.div_lt_of_lt_mul (by omega)
    omega
  · rw [if_neg (by omega)]
    exact Nat.div_eq_of_lt h

lemma testBit_top {W x : ℕ} (hW : 0 < W) (hx : x < 2 ^ W) :
    x.testBit (W - 1) = decide (2 ^ (W - 1) ≤ x) := by
  rw [Nat.testBit_to_div_mod]
  have h2 : 2 ^ W = 2 ^ (W - 1) * 2 := by
    rw [← Nat.pow_succ]
    congr 1
    omega
  have hp : 0 < 2 ^ (W - 1) := Nat.two_pow_pos _
  have hq : x / 2 ^ (W - 1) < 2 := Nat.div_lt_of_lt_mul (by omega)
  rcases le_or_lt (2 ^ (W - 1)) x with h | h
  · have h1 : 1 ≤ x / 2 ^ (W - 1) := (Nat.one_le_div_iff hp).2 h
    have : x / 2 ^ (W - 1) % 2 = 1 := by omega
    simp [this, h]
  · have h0 : x / 2 ^ (W - 1) = 0 := Nat.div_eq_of_lt h
    simp [h0]
    omega

lemma nat_or_eq_zero_iff (a b : ℕ) : a ||| b = 0 ↔ a = 0 ∧ b = 0 := by
  constructor
  · intro h
    constructor
    · apply Nat.eq_of_testBit_eq
      intro i
      have hi := congrArg (fun t => t.testBit i) h
      simp only [Nat.testBit_or, Nat.zero_testBit, Bool.or_eq_false_iff] at hi
      simp [hi.1]
    · apply Nat.eq_of_testBit_eq
      intro i
      have hi := congrArg (fun t => t.testBit i) h
      simp only [Nat.testBit_or, Nat.zero_testBit, Bool.or_eq_false_iff] at hi
      simp [hi.2]
  · rintro ⟨rfl, rfl⟩
    rfl

lemma ct_mask_word_zero (W : ℕ) : ct_mask_word W 0 = 0 := by
  simp [ct_mask_word, Nat.mod_self]

lemma ct_mask_word_ones {W v : ℕ} (hv0 : 0 < v) (hv : v < 2 ^ W) :
    ct_mask_word W v = 2 ^ W - 1 := by
  have hW : 0 < W := by
    rcases Nat.eq_zero_or_pos W with h | h
    · subst h
      simp at hv
      omega
    · exact h
  unfold ct_mask_word
  have hneg : (2 ^ W - v) % 2 ^ W = 2 ^ W - v := Nat.mod_eq_of_lt (by omega)
  rw [hneg]
  have h2 : 2 ^ W = 2 ^ (W - 1) * 2 := by
    rw [← Nat.pow_succ]
    congr 1
    omega
  have hor_lt : v ||| (2 ^ W - v) < 2 ^ W := Nat.or_lt_two_pow hv (by omega)
  have hor_ge : 2 ^ (W - 1) ≤ v ||| (2 ^ W - v) := by
    have hb : (v ||| (2 ^ W - v)).testBit (W - 1) = true := by
      rw [Nat.testBit_or, testBit_top hW hv, testBit_top hW (show 2 ^ W - v < 2 ^ W by omega)]
      rcases le_or_lt (2 ^ (W - 1)) v with h | h
      · simp [h]
      · have hgv : 2 ^ (W - 1) ≤ 2 ^ W - v := by omega
        simp [hgv]
    rw [testBit_top hW hor_lt] at hb
    exact of_decide_eq_true hb
  rw [shiftTop hW hor_lt, if_pos hor_ge, Nat.mod_eq_of_lt (by omega)]

lemma uint_mask_zero (W : ℕ) : mbedtls_ct_uint_mask W 0 = 0 := ct_mask_word_zero W

lemma uint_mask_ones {W v : ℕ} (hv0 : 0 < v) (hv : v < 2 ^ W) :
    mbedtls_ct_uint_mask W v = 2 ^ W - 1 := ct_mask_word_ones hv0 hv

lemma uint_if_eq {W c a b : ℕ} (hc : c < 2 ^ W) (ha : a < 2 ^ W) (hb : b < 2 ^ W) :
    mbedtls_ct_uint_if W c a b = if c = 0 then b else a := by
  simp only [mbedtls_ct_uint_if]
  rcases Nat.eq_zero_or_pos c with h | h
  · subst h
    rw [uint_mask_zero, if_pos rfl]
    simp only [Nat.zero_and, Nat.zero_xor, Nat.zero_or]
    rw [Nat.and_comm, Nat.and_pow_two_sub_one_of_lt_two_pow hb]
  · rw [uint_mask_ones h hc, if_neg (by omega), Nat.xor_self]
    simp only [Nat.zero_and, Nat.or_zero]
    rw [Nat.and_comm, Nat.and_pow_two_sub_one_of_lt_two_pow ha]

lemma size_gt_eq {W x y : ℕ} (hW : 0 < W) (hx : x ≤ 2 ^ (W - 1)) (hy : y < 2 ^ (W - 1)) :
    mbedtls_ct_size_gt W x y = if y < x then 1 else 0 := by
  unfold mbedtls_ct_size_gt
  have h2 : 2 ^ W = 2 ^ (W - 1) * 2 := by
    rw [← Nat.pow_succ]
    congr 1
    omega
  rcases le_or_lt x y with h | h
  · have hv : (2 ^ W + y) - x = 2 ^ W + (y - x) := by omega
    rw [hv, Nat.add_mod_left, Nat.mod_eq_of_lt (by omega), shiftTop hW (by omega)]
    rw [if_neg (by omega), if_neg (by omega)]
  · have hv : (2 ^ W + y) - x = 2 ^ W - (x - y) := by omega
    rw [hv, Nat.mod_eq_of_lt (by omega), shiftTop hW (by omega)]
    rw [if_pos (by omega), if_pos h]

lemma size_mask_lt_eq {W x y : ℕ} (hW : 0 < W) (hx : x < 2 ^ (W - 1)) (hy : y ≤ 2 ^ (W - 1)) :
    mbedtls_ct_size_mask_lt W x y = if x < y then 2 ^ W - 1 else 0 := by
  simp only [mbedtls_ct_size_mask_lt]
  have h2 : 2 ^ W = 2 ^ (W - 1) * 2 := by
    rw [← Nat.pow_succ]
    congr 1
    omega
  have hsub1 : (((2 ^ W + x) - y) % 2 ^ W) >>> (W - 1) = if x < y then 1 else 0 := by
    rcases le_or_lt y x with h | h
    · have hv : (2 ^ W + x) - y = 2 ^ W + (x - y) := by omega
      rw [hv, Nat.add_mod_left, Nat.mod_eq_of_lt (by omega), shiftTop hW (by omega)]
      rw [if_neg (by omega), if_neg (by omega)]
    · have hv : (2 ^ W + x) - y = 2 ^ W - (y - x) := by omega
      rw [hv, Nat.mod_eq_of_lt (by omega), shiftTop hW (by omega)]
      rw [if_pos (by omega), if_pos h]
  rw [hsub1]
  rcases lt_or_le x y with h | h
  · rw [if_pos h, if_pos h]
    exact ct_mask_word_ones (by omega) (by omega)
  · rw [if_neg (by omega), if_neg (by omega)]
    exact ct_mask_word_zero W

lemma mpi_uint_lt_correct {W x y : ℕ} (hW : 0 < W) (hx : x < 2 ^ W) (hy : y < 2 ^ W) :
    mbedtls_ct_mpi_uint_lt W x y = if x < y then 1 else 0 := by
  unfold mbedtls_ct_mpi_uint_lt
  have h2 : 2 ^ W = 2 ^ (W - 1) * 2 := by
    rw [← Nat.pow_succ]
    congr 1
    omega
  set s := ((2 ^ W + x) - y) % 2 ^ W with hs
  set c := x ^^^ y with hc
  set r1 := s &&& (c ^^^ (2 ^ W - 1)) with hr1
  set r2 := r1 ||| (y &&& c) with hr2
  have hsb : s < 2 ^ W := Nat.mod_lt _ (Nat.two_pow_pos W)
  have hr1b : r1 < 2 ^ W := lt_of_le_of_lt Nat.and_le_left hsb
  have hycb : y &&& c < 2 ^ W := lt_of_le_of_lt Nat.and_le_left hy
  have hr2b : r2 < 2 ^ W := Nat.or_lt_two_pow hr1b hycb
  rw [shiftTop hW hr2b]
  have hWlt : W - 1 < W := by omega
  have htop : r2.testBit (W - 1) =
      ((s.testBit (W - 1) && !(c.testBit (W - 1))) ||
        (y.testBit (W - 1) && c.testBit (W - 1))) := by
    rw [hr2, Nat.testBit_or, hr1, Nat.testBit_and, Nat.testBit_xor,
      Nat.testBit_two_pow_sub_one, Nat.testBit_and]
    simp [hWlt, Bool.xor_true]
  have hcbit : c.testBit (W - 1) = ((x.testBit (W - 1)).xor (y.testBit (W - 1))) := by
    rw [hc, Nat.testBit_xor]
  rw [testBit_top hW hr2b] at htop
  rw [testBit_top hW hx, testBit_top hW hy] at hcbit
  rcases le_or_lt (2 ^ (W - 1)) x with hx1 | hx1 <;>
    rcases le_or_lt (2 ^ (W - 1)) y with hy1 | hy1
  · -- top bits both 1: sign bit of the subtraction decides
    have hcb : c.testBit (W - 1) = false := by
      rw [hcbit]
      simp [hx1, hy1]
    rcases le_or_lt y x with h | h
    · have hv : (2 ^ W + x) - y = 2 ^ W + (x - y) := by omega
      have hsv : s = x - y := by
        rw [hs, hv, Nat.add_mod_left, Nat.mod_eq_of_lt (by omega)]
      have hst : s.testBit (W - 1) = false := Nat.testBit_lt_two_pow (by omega)
      rw [hcb, hst] at htop
      simp at htop
      rw [if_neg (by omega), if_neg (by omega)]
    · have hv : (2 ^ W + x) - y = 2 ^ W - (y - x) := by omega
      have hsv : s = 2 ^ W - (y - x) := by
        rw [hs, hv, Nat.mod_eq_of_lt (by omega)]
      have hst : s.testBit (W - 1) = true := by
        rw [testBit_top hW hsb]
        exact decide_eq_true (by omega)
      rw [hcb, hst] at htop
      simp at htop
      rw [if_pos (by omega), if_pos h]
  · -- x top 1, y top 0: x ≥ 2^(W-1) > y, so x < y is false
    have hcb : c.testBit (W - 1) = true := by
      rw [hcbit]
      simp [hx1]
      omega
    have hyt : y.testBit (W - 1) = false := Nat.testBit_lt_two_pow hy1
    rw [hcb, hyt] at htop
    simp at htop
    rw [if_neg (by omega), if_neg (by omega)]
  · -- x top 0, y top 1: x < 2^(W-1) ≤ y, so x < y
    have hcb : c.testBit (W - 1) = true := by
      rw [hcbit]
      simp [hy1]
      omega
    have hyt : y.testBit (W - 1) = true := by
      rw [testBit_top hW hy]
      exact decide_eq_true hy1
    rw [hcb, hyt] at htop
    simp at htop
    rw [if_pos (by omega), if_pos (by omega)]
  · -- top bits both 0
    have hcb : c.testBit (W - 1) = false := by
      rw [hcbit]
      simp
      omega
    rcases le_or_lt y x with h | h
    · have hv : (2 ^ W + x) - y = 2 ^ W + (x - y) := by omega
      have hsv : s = x - y := by
        rw [hs, hv, Nat.add_mod_left, Nat.mod_eq_of_lt (by omega)]
      have hst : s.testBit (W - 1) = false := Nat.testBit_lt_two_pow (by omega)
      rw [hcb, hst] at htop
      simp at htop
      rw [if_neg (by omega), if_neg (by omega)]
    · have hv : (2 ^ W + x) - y = 2 ^ W - (y - x) := by omega
      have hsv : s = 2 ^ W - (y - x) := by
        rw [hs, hv, Nat.mod_eq_of_lt (by omega)]
      have hst : s.testBit (W - 1) = true := by
        rw [testBit_top hW hsb]
        exact decide_eq_true (by omega)
      rw [hcb, hst] at htop
      simp at htop
      rw [if_pos (by omega), if_pos h]

/-! ### Claim C4: the size_t comparators -/

/-- C4 counterexample: at `W = 8`, `x = 129 > y = 0` yet `mbedtls_ct_size_gt`
returns 0, and `x = 0 < y = 129` yet `mbedtls_ct_size_mask_lt` returns 0, so
the comparators do not agree with the mathematical comparison on every pair
in `[0, 2^W)` when the most significant bits differ. -/
theorem C4_counterexample :
    (0 : ℕ) < 129 ∧ mbedtls_ct_size_gt 8 129 0 = 0 ∧
      mbedtls_ct_size_mask_lt 8 0 129 = 0 := by decide

/-- C4 (amended): `mbedtls_ct_size_gt` and `mbedtls_ct_size_mask_lt` agree
with the mathematical comparison on every pair in `[0, 2^(W-1))`, i.e. on all
pairs whose difference cannot overflow the sign bit. -/
theorem C4_size_comparators (W x y : ℕ) (hW : 0 < W)
    (hx : x < 2 ^ (W - 1)) (hy : y < 2 ^ (W - 1)) :
    mbedtls_ct_size_gt W x y = (if y < x then 1 else 0) ∧
      mbedtls_ct_size_mask_lt W x y = (if x < y then 2 ^ W - 1 else 0) :=
  ⟨size_gt_eq hW (le_of_lt hx) hy, size_mask_lt_eq hW hx (le_of_lt hy)⟩

/-- C4 witness: the amended statement evaluated at `W = 8`, `x = 3`, `y = 5`. -/
theorem C4_witness :
    (0 : ℕ) < 8 ∧ (3 : ℕ) < 2 ^ 7 ∧ (5 : ℕ) < 2 ^ 7 ∧
      (mbedtls_ct_size_gt 8 3 5 = (if 5 < 3 then 1 else 0) ∧
        mbedtls_ct_size_mask_lt 8 3 5 = (if 3 < 5 then 2 ^ 8 - 1 else 0)) :=
  ⟨by decide, by decide, by decide, C4_size_comparators 8 3 5 (by decide) (by decide) (by decide)⟩

/-! ### Claim C5: mbedtls_ct_mpi_uint_lt -/

/-- C5: for every pair of limb values `x, y < 2^W` — including pairs whose top
bits differ — `mbedtls_ct_mpi_uint_lt W x y` returns 1 if `x < y` and 0
otherwise. -/
theorem C5_mpi_uint_lt (W x y : ℕ) (hW : 0 < W) (hx : x < 2 ^ W) (hy : y < 2 ^ W) :
    mbedtls_ct_mpi_uint_lt W x y = if x < y then 1 else 0 :=
  mpi_uint_lt_correct hW hx hy

/-- C5 witness: evaluated at `W = 8`, `x = 200`, `y = 3`, a pair whose top
bits differ. -/
theorem C5_witness :
    (0 : ℕ) < 8 ∧ (200 : ℕ) < 2 ^ 8 ∧ (3 : ℕ) < 2 ^ 8 ∧
      mbedtls_ct_mpi_uint_lt 8 200 3 = (if (200 : ℕ) < 3 then 1 else 0) :=
  ⟨by decide, by decide, by decide, C5_mpi_uint_lt 8 200 3 (by decide) (by decide) (by decide)⟩

/-! ### Claim C9: mbedtls_ct_memcmp -/

lemma foldl_or_eq_zero (l : List ℕ) (init : ℕ) :
    l.foldl (fun diff z => diff ||| z) init = 0 ↔ init = 0 ∧ ∀ z ∈ l, z = 0 := by
  induction l generalizing init with
  | nil => simp
  | cons z l ih =>
    simp only [List.foldl_cons, ih, nat_or_eq_zero_iff, List.mem_cons]
    constructor
    · rintro ⟨⟨h1, h2⟩, h3⟩
      exact ⟨h1, fun w hw => hw.elim (fun h => h ▸ h2) (h3 w)⟩
    · rintro ⟨h1, h2⟩
      exact ⟨⟨h1, h2 z (Or.inl rfl)⟩, fun w hw => h2 w (Or.inr hw)⟩

lemma zipWith_xor_zero (a b : List ℕ) (h : a.length = b.length) :
    (∀ z ∈ List.zipWith (fun x y => x ^^^ y) a b, z = 0) ↔ a = b := by
  induction a generalizing b with
  | nil =>
    cases b with
    | nil => simp
    | cons y b => simp at h
  | cons x a ih =>
    cases b with
    | nil => simp at h
    | cons y b =>
      simp only [List.length_cons, Nat.add_right_cancel_iff] at h
      simp only [List.zipWith_cons_cons, List.mem_cons, List.cons.injEq]
      constructor
      · intro hz
        have hx : x ^^^ y = 0 := hz _ (Or.inl rfl)
        refine ⟨Nat.xor_eq_zero.1 hx, (ih b h).1 fun z hzz => hz z (Or.inr hzz)⟩
      · rintro ⟨rfl, rfl⟩
        intro z hz
        rcases hz with h' | h'
        · rw [h', Nat.xor_self]
        · exact ((ih a rfl).2 rfl) z h'

/-- C9: for `n`-byte buffers `a` and `b`, `mbedtls_ct_memcmp a b` returns 0
iff `a` and `b` are byte-for-byte equal (nonzero whenever they differ). -/
theorem C9_memcmp (n : ℕ) (a b : List ℕ) (ha : a.length = n) (hb : b.length = n)
    (hba : ∀ x ∈ a, x < 256) (hbb : ∀ x ∈ b, x < 256) :
    mbedtls_ct_memcmp a b = 0 ↔ a = b := by
  unfold mbedtls_ct_memcmp
  rw [foldl_or_eq_zero]
  have hlen : a.length = b.length := by omega
  simp [zipWith_xor_zero a b hlen]

/-- C9 witness: evaluated at the 2-byte buffers `[1, 2]` and `[1, 3]`. -/
theorem C9_witness :
    ([1, 2] : List ℕ).length = 2 ∧ ([1, 3] : List ℕ).length = 2 ∧
      (∀ x ∈ ([1, 2] : List ℕ), x < 256) ∧ (∀ x ∈ ([1, 3] : List ℕ), x < 256) ∧
      (mbedtls_ct_memcmp [1, 2] [1, 3] = 0 ↔ ([1, 2] : List ℕ) = [1, 3]) :=
  ⟨by decide, by decide, by decide, by decide,
    C9_memcmp 2 [1, 2] [1, 3] (by decide) (by decide) (by decide) (by decide)⟩

/-! ### mbedtls_ct_mem_move_to_left -/

/-- One pass of the inner loop of `mbedtls_ct_mem_move_to_left`: every
position `n < total - 1` is rewritten from `(buf[n], buf[n+1])` and the last
position from `(buf[total-1], 0)`, each through `mbedtls_ct_uint_if`. -/
def ct_shift_inner (W no_op : ℕ) : List ℕ → List ℕ
  | [] => []
  | [b] => [mbedtls_ct_uint_if W no_op b 0]
  | b :: c :: rest => mbedtls_ct_uint_if W no_op b c :: ct_shift_inner W no_op (c :: rest)

/-- The outer loop of `mbedtls_ct_mem_move_to_left`: iteration index `i`
runs while `fuel` counts down, each iteration choosing its `no_op` flag via
`mbedtls_ct_size_gt (total - offset) i`. -/
def ct_move_iter (W total offset : ℕ) : ℕ → ℕ → List ℕ → List ℕ
  | _, 0, buf => buf
  | i, fuel + 1, buf =>
      ct_move_iter W total offset (i + 1) fuel
        (ct_shift_inner W (mbedtls_ct_size_gt W (total - offset) i) buf)

/-- `mbedtls_ct_mem_move_to_left` from the source: early return on
`total == 0`, otherwise `total` passes of the flow-independent unit shift. -/
def mbedtls_ct_mem_move_to_left (W total offset : ℕ) (buf : List ℕ) : List ℕ :=
  if total = 0 then buf else ct_move_iter W total offset 0 total buf

/-- Purely functional unit left shift: drop the head and append a zero. -/
def shiftOne : List ℕ → List ℕ
  | [] => []
  | _ :: t => t ++ [0]

/-- Iterated unit left shift. -/
def shiftN : ℕ → List ℕ → List ℕ
  | 0, l => l
  | n + 1, l => shiftN n (shiftOne l)

lemma ct_shift_inner_id {W no_op : ℕ} (h0 : no_op ≠ 0) (hno : no_op < 2 ^ W) :
    ∀ l : List ℕ, (∀ x ∈ l, x < 2 ^ W) → ct_shift_inner W no_op l = l := by
  intro l
  induction l with
  | nil => intro _; rfl
  | cons b t ih =>
    intro hb
    cases t with
    | nil =>
      have hbb : b < 2 ^ W := hb b (by simp)
      simp [ct_shift_inner, uint_if_eq hno hbb (Nat.two_pow_pos W), h0]
    | cons c rest =>
      have hbb : b < 2 ^ W := hb b (by simp)
      have hcc : c < 2 ^ W := hb c (by simp)
      simp only [ct_shift_inner]
      rw [uint_if_eq hno hbb hcc, if_neg h0,
        ih (fun x hx => hb x (List.mem_cons_of_mem b hx))]

lemma ct_shift_inner_zero {W : ℕ} (hW : 0 < W) :
    ∀ l : List ℕ, (∀ x ∈ l, x < 2 ^ W) → ct_shift_inner W 0 l = shiftOne l := by
  intro l
  induction l with
  | nil => intro _; rfl
  | cons b t ih =>
    intro hb
    cases t with
    | nil =>
      have hbb : b < 2 ^ W := hb b (by simp)
      simp [ct_shift_inner, shiftOne, uint_if_eq (Nat.two_pow_pos W) hbb (Nat.two_pow_pos W)]
    | cons c rest =>
      have hbb : b < 2 ^ W := hb b (by simp)
      have hcc : c < 2 ^ W := hb c (by simp)
      simp only [ct_shift_inner, shiftOne]
      rw [uint_if_eq (Nat.two_pow_pos W) hbb hcc, if_pos rfl]
      have ht := ih (fun x hx => hb x (List.mem_cons_of_mem b hx))
      rw [ht]
      cases rest <;> simp [shiftOne]

lemma shiftOne_bound {W : ℕ} (hW : 0 < W) (l : List ℕ) (hb : ∀ x ∈ l, x < 2 ^ W) :
    ∀ x ∈ shiftOne l, x < 2 ^ W := by
  cases l with
  | nil => simp [shiftOne]
  | cons b t =>
    intro x hx
    simp only [shiftOne, List.mem_append, List.mem_singleton] at hx
    rcases hx with h | h
    · exact hb x (List.mem_cons_of_mem b h)
    · rw [h]; exact Nat.two_pow_pos W

lemma ct_move_iter_add (W t o : ℕ) :
    ∀ f1 f2 i (buf : List ℕ),
      ct_move_iter W t o i (f1 + f2) buf =
        ct_move_iter W t o (i + f1) f2 (ct_move_iter W t o i f1 buf) := by
  intro f1
  induction f1 with
  | zero => intro f2 i buf; simp [ct_move_iter]
  | succ f1 ih =>
    intro f2 i buf
    have h : f1 + 1 + f2 = (f1 + f2) + 1 := by omega
    rw [h]
    simp only [ct_move_iter]
    rw [ih]
    have h2 : i + 1 + f1 = i + (f1 + 1) := by omega
    rw [h2]

lemma ct_move_iter_noop (W t o : ℕ) (hW : 0 < W) (hto : t - o ≤ 2 ^ (W - 1)) :
    ∀ fuel i (buf : List ℕ), i + fuel ≤ t - o → (∀ x ∈ buf, x < 2 ^ W) →
      ct_move_iter W t o i fuel buf = buf := by
  intro fuel
  induction fuel with
  | zero => intro i buf _ _; rfl
  | succ fuel ih =>
    intro i buf hi hb
    have hilt : i < t - o := by omega
    have hgt : mbedtls_ct_size_gt W (t - o) i = 1 := by
      rw [size_gt_eq hW hto (by omega), if_pos hilt]
    simp only [ct_move_iter, hgt]
    rw [ct_shift_inner_id (by omega) (by
      have h1 := Nat.two_pow_pos (W - 1)
      have h2 : 2 ^ W = 2 ^ (W - 1) * 2 := by
        rw [← Nat.pow_succ]
        congr 1
        omega
      omega) buf hb]
    exact ih (i + 1) buf (by omega) hb

lemma ct_move_iter_shift (W t o : ℕ) (hW : 0 < W) (ht : t ≤ 2 ^ (W - 1)) :
    ∀ fuel i (buf : List ℕ), t - o ≤ i → i + fuel ≤ t → (∀ x ∈ buf, x < 2 ^ W) →
      ct_move_iter W t o i fuel buf = shiftN fuel buf := by
  intro fuel
  induction fuel with
  | zero => intro i buf _ _ _; rfl
  | succ fuel ih =>
    intro i buf hi hit hb
    have hgt : mbedtls_ct_size_gt W (t - o) i = 0 := by
      rw [size_gt_eq hW (by omega) (by omega), if_neg (by omega)]
    simp only [ct_move_iter, hgt, shiftN]
    rw [ct_shift_inner_zero hW buf hb]
    exact ih (i + 1) (shiftOne buf) (by omega) (by omega) (shiftOne_bound hW buf hb)

lemma drop_append_le {α : Type} (l1 l2 : List α) :
    ∀ k, k ≤ l1.length → (l1 ++ l2).drop k = l1.drop k ++ l2 := by
  induction l1 with
  | nil =>
    intro k hk
    simp at hk
    subst hk
    simp
  | cons b t ih =>
    intro k hk
    cases k with
    | zero => simp
    | succ k =>
      simp only [List.cons_append, List.drop_succ_cons]
      exact ih k (by simpa using hk)

lemma shiftN_drop : ∀ (k : ℕ) (l : List ℕ), k ≤ l.length →
    shiftN k l = l.drop k ++ List.replicate k 0 := by
  intro k
  induction k with
  | zero => intro l _; simp [shiftN]
  | succ k ih =>
    intro l hk
    cases l with
    | nil => simp at hk
    | cons b t =>
      have hk' : k ≤ t.length := by
        simp only [List.length_cons] at hk
        omega
      simp only [shiftN, shiftOne]
      rw [ih (t ++ [0]) (by simp; omega)]
      rw [drop_append_le t [0] k hk']
      simp only [List.drop_succ_cons, List.append_assoc, List.singleton_append]
      rw [← List.replicate_succ]

lemma mem_move_to_left_eq {W total offset : ℕ} (buf : List ℕ) (hW : 0 < W)
    (hlen : buf.length = total) (hoff : offset ≤ total) (ht : total ≤ 2 ^ (W - 1))
    (hb : ∀ x ∈ buf, x < 2 ^ W) :
    mbedtls_ct_mem_move_to_left W total offset buf =
      buf.drop offset ++ List.replicate offset 0 := by
  unfold mbedtls_ct_mem_move_to_left
  rcases Nat.eq_zero_or_pos total with h0 | h0
  · subst h0
    have : offset = 0 := by omega
    subst this
    rw [if_pos rfl]
    simp
  · rw [if_neg (by omega)]
    have hadd := ct_move_iter_add W total offset (total - offset) offset 0 buf
    rw [show total - offset + offset = total from by omega] at hadd
    rw [hadd]
    rw [ct_move_iter_noop W total offset hW (by omega) (total - offset) 0 buf (by omega) hb]
    rw [ct_move_iter_shift W total offset hW ht offset (0 + (total - offset)) buf (by omega)
      (by omega) hb]
    exact shiftN_drop offset buf (by omega)

/-! ### Claim C6: mbedtls_ct_mem_move_to_left -/

/-- C6: for a `total`-byte buffer and any `offset ≤ total` (with `total`
within the address-space bound `2^(W-1)` of a `W`-bit `size_t`),
`mbedtls_ct_mem_move_to_left` moves bytes `[offset, total)` down to
`[0, total - offset)` and zeroes the last `offset` bytes. -/
theorem C6_mem_move_to_left (W total offset : ℕ) (buf : List ℕ) (hW : 0 < W)
    (hlen : buf.length = total) (hoff : offset ≤ total) (ht : total ≤ 2 ^ (W - 1))
    (hb : ∀ x ∈ buf, x < 2 ^ W) :
    mbedtls_ct_mem_move_to_left W total offset buf =
      buf.drop offset ++ List.replicate offset 0 :=
  mem_move_to_left_eq buf hW hlen hoff ht hb

/-- C6 witness: evaluated at `W = 8`, `buf = [7, 5, 9]`, `offset = 1`. -/
theorem C6_witness :
    (0 : ℕ) < 8 ∧ ([7, 5, 9] : List ℕ).length = 3 ∧ (1 : ℕ) ≤ 3 ∧ (3 : ℕ) ≤ 2 ^ 7 ∧
      (∀ x ∈ ([7, 5, 9] : List ℕ), x < 2 ^ 8) ∧
      mbedtls_ct_mem_move_to_left 8 3 1 [7, 5, 9] =
        ([7, 5, 9] : List ℕ).drop 1 ++ List.replicate 1 0 :=
  ⟨by decide, by decide, by decide, by decide, by decide,
    C6_mem_move_to_left 8 3 1 [7, 5, 9] (by decide) (by decide) (by decide) (by decide)
      (by decide)⟩

/-! ### PKCS#1 v1.5 unpadding -/

/-- One iteration of the padding scan of
`mbedtls_ct_rsaes_pkcs1_v15_unpadding`: update `(pad_done, pad_count)` with
the branch-free bit tricks of the source (arithmetic on `unsigned char`,
i.e. modulo 256). -/
def padStep (s : ℕ × ℕ) (b : ℕ) : ℕ × ℕ :=
  let pad_done := s.1 ||| (((b ||| ((256 - b) % 256)) >>> 7) ^^^ 1)
  let pad_count := s.2 + (((pad_done ||| ((256 - pad_done) % 256)) >>> 7) ^^^ 1)
  (pad_done, pad_count)

/-- The scan over `input[2..ilen)` of the source, started from
`pad_done = 0`, `pad_count = 0`. -/
def padLoop (l : List ℕ) : ℕ × ℕ := l.foldl padStep (0, 0)

set_option maxRecDepth 4096 in
lemma padBit : ∀ b < 256, ((b ||| ((256 - b) % 256)) >>> 7) ^^^ 1 = if b = 0 then 1 else 0 := by
  decide

lemma padLoop_go_done (l : List ℕ) : ∀ c, (∀ x ∈ l, x < 256) →
    l.foldl padStep (1, c) = (1, c) := by
  induction l with
  | nil => intro c _; rfl
  | cons b t ih =>
    intro c hb
    have hbb : b < 256 := hb b (by simp)
    have hstep : padStep (1, c) b = (1, c) := by
      simp only [padStep]
      rw [padBit b hbb]
      rcases eq_or_ne b 0 with h | h
      · rw [if_pos h]
        norm_num
        all_goals decide
      · rw [if_neg h]
        norm_num
        all_goals decide
    rw [List.foldl_cons, hstep]
    exact ih c fun x hx => hb x (List.mem_cons_of_mem b hx)

lemma padLoop_go (l : List ℕ) : ∀ c, (∀ x ∈ l, x < 256) →
    l.foldl padStep (0, c) =
      (if ∀ x ∈ l, x ≠ 0 then 0 else 1,
        c + (l.takeWhile (fun b => b != 0)).length) := by
  induction l with
  | nil => intro c _; simp
  | cons b t ih =>
    intro c hb
    have hbb : b < 256 := hb b (by simp)
    have htb : ∀ x ∈ t, x < 256 := fun x hx => hb x (List.mem_cons_of_mem b hx)
    by_cases h0 : b = 0
    · subst h0
      have hstep : padStep (0, c) 0 = (1, c) := by
        simp only [padStep]
        norm_num
        all_goals decide
      rw [List.foldl_cons, hstep, padLoop_go_done t c htb]
      rw [if_neg (by
        intro hall
        exact hall 0 (by simp) rfl)]
      rw [List.takeWhile_cons_of_neg (by simp)]
      simp
    · have hstep : padStep (0, c) b = (0, c + 1) := by
        simp only [padStep]
        rw [padBit b hbb, if_neg h0]
        norm_num
        all_goals decide
      rw [List.foldl_cons, hstep, ih (c + 1) htb]
      have hcond : (∀ x ∈ b :: t, x ≠ 0) ↔ (∀ x ∈ t, x ≠ 0) := by
        simp [h0]
      rw [List.takeWhile_cons_of_pos (by simpa using h0)]
      rw [Prod.mk.injEq]
      constructor
      · exact if_congr hcond.symm rfl rfl
      · simp only [List.length_cons]
        omega

lemma padLoop_char (l : List ℕ) (hb : ∀ x ∈ l, x < 256) :
    padLoop l = (if ∀ x ∈ l, x ≠ 0 then 0 else 1,
      (l.takeWhile (fun b => b != 0)).length) := by
  have h := padLoop_go l 0 hb
  simpa [padLoop] using h

lemma takeWhile_ne_zero_append (l1 l2 : List ℕ) (h : ∀ x ∈ l1, x ≠ 0) :
    (l1 ++ 0 :: l2).takeWhile (fun b => b != 0) = l1 := by
  induction l1 with
  | nil => simp [List.takeWhile_cons_of_neg]
  | cons b t ih =>
    have hb : b ≠ 0 := h b (by simp)
    simp only [List.cons_append]
    rw [List.takeWhile_cons_of_pos (by simpa using hb)]
    rw [ih fun x hx => h x (List.mem_cons_of_mem b hx)]

/-- Result record of `mbedtls_ct_rsaes_pkcs1_v15_unpadding`: the returned
error code, the written `*olen`, the output buffer after the final `memcpy`,
and the (scrubbed, shifted) working input buffer. -/
structure UnpadResult where
  ret : ℤ
  olen : ℕ
  output : List ℕ
  work : List ℕ
  deriving DecidableEq, Repr

/-- `mbedtls_ct_rsaes_pkcs1_v15_unpadding` from the source, on a `W`-bit
machine.  `input` is the RSA-decrypted block of length `ilen`; `output` is
the caller's buffer (its bytes beyond the copied region keep their previous
values).  Statement-by-statement transliteration of the C body. -/
def mbedtls_ct_rsaes_pkcs1_v15_unpadding (W : ℕ) (input : List ℕ) (ilen : ℕ)
    (output : List ℕ) (output_max_len : ℕ) : UnpadResult :=
  let plaintext_max_size := if output_max_len > ilen - 11 then ilen - 11 else output_max_len
  let bad1 := input.getD 0 0
  let bad2 := bad1 ||| (input.getD 1 0 ^^^ MBEDTLS_RSA_CRYPT)
  let pads := padLoop (input.drop 2)
  let pad_done := pads.1
  let pad_count := pads.2
  let bad3 := bad2 ||| mbedtls_ct_uint_if W pad_done 0 1
  let bad := bad3 ||| mbedtls_ct_size_gt W 8 pad_count
  let plaintext_size := mbedtls_ct_uint_if W bad plaintext_max_size (ilen - pad_count - 3)
  let output_too_large := mbedtls_ct_size_gt W plaintext_size plaintext_max_size
  let ret : ℤ := -((mbedtls_ct_uint_if W bad (-MBEDTLS_ERR_RSA_INVALID_PADDING).toNat
    (mbedtls_ct_uint_if W output_too_large (-MBEDTLS_ERR_RSA_OUTPUT_TOO_LARGE).toNat 0) : ℕ) : ℤ)
  let badm := mbedtls_ct_uint_mask W (bad ||| output_too_large)
  let input2 := input.take 11 ++ (input.drop 11).map (fun b => b &&& (badm ^^^ (2 ^ W - 1)))
  let plaintext_size2 := mbedtls_ct_uint_if W output_too_large plaintext_max_size plaintext_size
  let moved := mbedtls_ct_mem_move_to_left W plaintext_max_size
    (plaintext_max_size - plaintext_size2) (input2.drop (ilen - plaintext_max_size))
  let input3 := input2.take (ilen - plaintext_max_size) ++ moved
  let output2 := if output_max_len ≠ 0 then
    (input3.drop (ilen - plaintext_max_size)).take plaintext_max_size ++
      output.drop plaintext_max_size
    else output
  ⟨ret, plaintext_size2, output2, input3⟩

/-! ### Specification-level views of the unpadding inputs -/

/-- The padding-scan count: number of nonzero bytes of `input[2..)` before
the first zero byte (all of them when no zero occurs). -/
def unpadPC (input : List ℕ) : ℕ := ((input.drop 2).takeWhile (fun b => b != 0)).length

/-- The public bound `plaintext_max_size = min(output_max_len, ilen - 11)`. -/
def unpadPMS (ilen output_max_len : ℕ) : ℕ := min output_max_len (ilen - 11)

/-- The would-be plaintext size `ilen - pad_count - 3` of a valid block. -/
def unpadPSize (input : List ℕ) (ilen : ℕ) : ℕ := ilen - unpadPC input - 3

/-- Invalid-padding condition: wrong leading byte, wrong block type, no
`0x00` separator in `input[2..)`, or fewer than 8 pad bytes before it. -/
def unpadBadCond (input : List ℕ) : Prop :=
  input.getD 0 0 ≠ 0 ∨ input.getD 1 0 ≠ MBEDTLS_RSA_CRYPT ∨
    (∀ x ∈ input.drop 2, x ≠ 0) ∨ unpadPC input < 8

instance unpadBadCond_dec (input : List ℕ) : Decidable (unpadBadCond input) := by
  unfold unpadBadCond
  infer_instance

lemma takeWhile_length_le {α : Type} (p : α → Bool) (l : List α) :
    (l.takeWhile p).length ≤ l.length := by
  induction l with
  | nil => simp
  | cons b t ih =>
    rw [List.takeWhile_cons]
    split <;> simp <;> omega

lemma drop_append_ge {α : Type} (l1 l2 : List α) (k : ℕ) (h : l1.length ≤ k) :
    (l1 ++ l2).drop k = l2.drop (k - l1.length) := by
  have hk : l1.length + (k - l1.length) = k := by omega
  calc (l1 ++ l2).drop k = ((l1 ++ l2).drop l1.length).drop (k - l1.length) := by
        rw [List.drop_drop, hk]
    _ = l2.drop (k - l1.length) := by rw [List.drop_left]

lemma unpad_eval (W : ℕ) (input : List ℕ) (ilen output_max_len : ℕ) (output : List ℕ)
    (hlen : input.length = ilen) (h11 : 11 ≤ ilen) (hsmall : ilen < 2 ^ (W - 1))
    (hW : 16 ≤ W) (hbytes : ∀ x ∈ input, x < 256) :
    (mbedtls_ct_rsaes_pkcs1_v15_unpadding W input ilen output output_max_len).ret =
        (if unpadBadCond input then MBEDTLS_ERR_RSA_INVALID_PADDING
          else if unpadPMS ilen output_max_len < unpadPSize input ilen then
            MBEDTLS_ERR_RSA_OUTPUT_TOO_LARGE else 0) ∧
      (mbedtls_ct_rsaes_pkcs1_v15_unpadding W input ilen output output_max_len).olen =
        (if unpadBadCond input ∨ unpadPMS ilen output_max_len < unpadPSize input ilen then
          unpadPMS ilen output_max_len else unpadPSize input ilen) ∧
      (mbedtls_ct_rsaes_pkcs1_v15_unpadding W input ilen output output_max_len).output =
        (if output_max_len = 0 then output else
          (if unpadBadCond input ∨ unpadPMS ilen output_max_len < unpadPSize input ilen then
            List.replicate (unpadPMS ilen output_max_len) 0
          else input.drop (ilen - unpadPSize input ilen) ++
            List.replicate (unpadPMS ilen output_max_len - unpadPSize input ilen) 0) ++
          output.drop (unpadPMS ilen output_max_len)) := by
  have hWpos : 0 < W := by omega
  have hP15 : (2 : ℕ) ^ 15 ≤ 2 ^ (W - 1) := Nat.pow_le_pow_right (by norm_num) (by omega)
  have hPW : (2 : ℕ) ^ (W - 1) ≤ 2 ^ W := Nat.pow_le_pow_right (by norm_num) (by omega)
  have h15 : (32768 : ℕ) ≤ 2 ^ (W - 1) := by
    have : (2 : ℕ) ^ 15 = 32768 := by norm_num
    omega
  have h256 : (256 : ℕ) ≤ 2 ^ W := by omega
  have hb0 : input.getD 0 0 < 256 := by
    rw [List.getD_eq_getElem input 0 (by omega)]
    exact hbytes _ (List.getElem_mem _)
  have hb1 : input.getD 1 0 < 256 := by
    rw [List.getD_eq_getElem input 0 (by omega)]
    exact hbytes _ (List.getElem_mem _)
  have hdrop2b : ∀ x ∈ input.drop 2, x < 256 := fun x hx =>
    hbytes x (List.mem_of_mem_drop hx)
  have hpad : padLoop (input.drop 2) =
      (if ∀ x ∈ input.drop 2, x ≠ 0 then 0 else 1, unpadPC input) := by
    rw [padLoop_char (input.drop 2) hdrop2b]
    rfl
  have hpc_le : unpadPC input ≤ ilen - 2 := by
    have h1 := takeWhile_length_le (fun b => b != 0) (input.drop 2)
    have h2 : (input.drop 2).length = ilen - 2 := by
      rw [List.length_drop, hlen]
    unfold unpadPC
    omega
  have hpms_def : (if output_max_len > ilen - 11 then ilen - 11 else output_max_len) =
      unpadPMS ilen output_max_len := by
    unfold unpadPMS
    split_ifs <;> omega
  have hInv : (-MBEDTLS_ERR_RSA_INVALID_PADDING).toNat = 16640 := by decide
  have hTL : (-MBEDTLS_ERR_RSA_OUTPUT_TOO_LARGE).toNat = 17152 := by decide
  have hpms_le : unpadPMS ilen output_max_len ≤ ilen - 11 := by
    unfold unpadPMS
    omega
  have hpms_lt : unpadPMS ilen output_max_len < 2 ^ W := by omega
  have hpms_lt1 : unpadPMS ilen output_max_len < 2 ^ (W - 1) := by omega
  have hpsz_lt : ilen - unpadPC input - 3 < 2 ^ W := by omega
  have h16640 : (16640 : ℕ) < 2 ^ W := by omega
  have h17152 : (17152 : ℕ) < 2 ^ W := by omega
  simp only [mbedtls_ct_rsaes_pkcs1_v15_unpadding, hpad, hInv, hTL, hpms_def]
  set pms := unpadPMS ilen output_max_len with hpmsdef
  set pc := unpadPC input with hpcdef
  have ht1 : mbedtls_ct_uint_if W (if ∀ x ∈ input.drop 2, x ≠ 0 then 0 else 1) 0 1 =
      (if ∀ x ∈ input.drop 2, x ≠ 0 then 1 else 0) := by
    split_ifs with h
    · rw [uint_if_eq (Nat.two_pow_pos W) (Nat.two_pow_pos W) (by omega), if_pos rfl]
    · rw [uint_if_eq (by omega) (Nat.two_pow_pos W) (by omega), if_neg (by omega)]
  have ht2 : mbedtls_ct_size_gt W 8 pc = if pc < 8 then 1 else 0 :=
    size_gt_eq hWpos (by omega) (by omega)
  rw [ht1, ht2]
  set B := input.getD 0 0 ||| (input.getD 1 0 ^^^ MBEDTLS_RSA_CRYPT) |||
      (if ∀ x ∈ input.drop 2, x ≠ 0 then 1 else 0) ||| (if pc < 8 then 1 else 0) with hBdef
  have hB_lt : B < 2 ^ W := by
    rw [hBdef]
    apply Nat.or_lt_two_pow
    apply Nat.or_lt_two_pow
    apply Nat.or_lt_two_pow
    · omega
    · exact lt_of_lt_of_le (Nat.xor_lt_two_pow (x := input.getD 1 0) (y := MBEDTLS_RSA_CRYPT)
        (n := 8) (by omega) (by norm_num [MBEDTLS_RSA_CRYPT])) (by omega)
    · split_ifs <;> omega
    · split_ifs <;> omega
  have hB_iff : B = 0 ↔ ¬ unpadBadCond input := by
    rw [hBdef, nat_or_eq_zero_iff, nat_or_eq_zero_iff, nat_or_eq_zero_iff, Nat.xor_eq_zero]
    unfold unpadBadCond
    rw [← hpcdef]
    constructor
    · rintro ⟨⟨⟨h1, h2⟩, h3⟩, h4⟩
      intro hc
      rcases hc with h | h | h | h
      · exact h h1
      · exact h h2
      · rw [if_pos h] at h3
        exact one_ne_zero h3
      · rw [if_pos h] at h4
        exact one_ne_zero h4
    · intro hc
      have h1 : input.getD 0 0 = 0 := by
        by_contra h
        exact hc (Or.inl h)
      have h2 : input.getD 1 0 = MBEDTLS_RSA_CRYPT := by
        by_contra h
        exact hc (Or.inr (Or.inl h))
      have h3 : ¬ (∀ x ∈ input.drop 2, x ≠ 0) := fun h => hc (Or.inr (Or.inr (Or.inl h)))
      have h4 : ¬ (pc < 8) := fun h => hc (Or.inr (Or.inr (Or.inr h)))
      refine ⟨⟨⟨h1, h2⟩, ?_⟩, ?_⟩
      · rw [if_neg h3]
      · rw [if_neg h4]
  by_cases hBad : unpadBadCond input
  · -- invalid padding: B is nonzero
    have hBne : B ≠ 0 := fun h => (hB_iff.1 h) hBad
    have hps : mbedtls_ct_uint_if W B pms (ilen - pc - 3) = pms := by
      rw [uint_if_eq hB_lt hpms_lt hpsz_lt, if_neg hBne]
    rw [hps]
    have hotl : mbedtls_ct_size_gt W pms pms = 0 := by
      rw [size_gt_eq hWpos (by omega) (by omega), if_neg (lt_irrefl _)]
    rw [hotl]
    have hiff0 : mbedtls_ct_uint_if W 0 17152 0 = 0 := by
      rw [uint_if_eq (Nat.two_pow_pos W) h17152 (Nat.two_pow_pos W), if_pos rfl]
    rw [hiff0]
    have hretv : mbedtls_ct_uint_if W B 16640 0 = 16640 := by
      rw [uint_if_eq hB_lt h16640 (Nat.two_pow_pos W), if_neg hBne]
    rw [hretv]
    have hps2 : mbedtls_ct_uint_if W 0 pms pms = pms := by
      rw [uint_if_eq (Nat.two_pow_pos W) hpms_lt hpms_lt, if_pos rfl]
    rw [hps2]
    have hmask : mbedtls_ct_uint_mask W (B ||| 0) = 2 ^ W - 1 := by
      rw [Nat.or_zero]
      exact uint_mask_ones (by omega) hB_lt
    rw [hmask, Nat.xor_self]
    have hscrub : (input.drop 11).map (fun b => b &&& 0) = List.replicate (ilen - 11) 0 := by
      simp only [Nat.and_zero]
      rw [List.map_const', List.length_drop, hlen]
    rw [hscrub, Nat.sub_self]
    have htake11 : (input.take 11).length = 11 := by
      rw [List.length_take]
      omega
    have hregion : (input.take 11 ++ List.replicate (ilen - 11) 0).drop (ilen - pms) =
        List.replicate pms 0 := by
      rw [drop_append_ge _ _ _ (by omega), htake11, List.drop_replicate]
      congr 1
      omega
    rw [hregion]
    have hmoved : mbedtls_ct_mem_move_to_left W pms 0 (List.replicate pms 0) =
        List.replicate pms 0 := by
      rw [mem_move_to_left_eq _ hWpos (List.length_replicate pms 0) (by omega) (by omega)
        (by
          intro x hx
          rw [List.eq_of_mem_replicate hx]
          exact Nat.two_pow_pos W)]
      simp
    rw [hmoved]
    have hi2len : (input.take 11 ++ List.replicate (ilen - 11) 0).length = ilen := by
      rw [List.length_append, htake11, List.length_replicate]
      omega
    have hout : ((input.take 11 ++ List.replicate (ilen - 11) 0).take (ilen - pms) ++
        List.replicate pms 0).drop (ilen - pms) = List.replicate pms 0 := by
      apply List.drop_left'
      rw [List.length_take, hi2len]
      omega
    rw [hout]
    have htakemoved : (List.replicate pms 0).take pms = List.replicate pms 0 := by
      rw [List.take_replicate, min_self]
    rw [htakemoved]
    have hor1 : unpadBadCond input ∨ unpadPMS ilen output_max_len < unpadPSize input ilen :=
      Or.inl hBad
    refine ⟨?_, ?_, ?_⟩
    · rw [if_pos hBad]
      norm_num [MBEDTLS_ERR_RSA_INVALID_PADDING]
    · rw [if_pos hor1]
    · rw [if_pos hor1]
      by_cases h0 : output_max_len = 0
      · rw [if_neg (show ¬ output_max_len ≠ 0 from by omega), if_pos h0]
      · rw [if_pos (show output_max_len ≠ 0 from h0), if_neg h0]
  · -- valid padding: B is zero
    have hB0 : B = 0 := hB_iff.2 hBad
    rw [hB0]
    have hpsize_eq : unpadPSize input ilen = ilen - pc - 3 := by
      unfold unpadPSize
      rw [← hpcdef]
    have hps : mbedtls_ct_uint_if W 0 pms (ilen - pc - 3) = ilen - pc - 3 := by
      rw [uint_if_eq (Nat.two_pow_pos W) hpms_lt hpsz_lt, if_pos rfl]
    rw [hps]
    have hotl : mbedtls_ct_size_gt W (ilen - pc - 3) pms =
        if pms < ilen - pc - 3 then 1 else 0 :=
      size_gt_eq hWpos (by omega) (by omega)
    rw [hotl]
    by_cases hO : pms < ilen - pc - 3
    · rw [if_pos hO]
      have hor2 : unpadBadCond input ∨ unpadPMS ilen output_max_len < unpadPSize input ilen :=
        Or.inr (by
          rw [hpsize_eq]
          omega)
      have hiff1 : mbedtls_ct_uint_if W 1 17152 0 = 17152 := by
        rw [uint_if_eq (by omega) h17152 (Nat.two_pow_pos W), if_neg one_ne_zero]
      rw [hiff1]
      have hretv : mbedtls_ct_uint_if W 0 16640 17152 = 17152 := by
        rw [uint_if_eq (Nat.two_pow_pos W) h16640 h17152, if_pos rfl]
      rw [hretv]
      have hps2 : mbedtls_ct_uint_if W 1 pms (ilen - pc - 3) = pms := by
        rw [uint_if_eq (by omega) hpms_lt hpsz_lt, if_neg one_ne_zero]
      rw [hps2]
      have hmask : mbedtls_ct_uint_mask W (0 ||| 1) = 2 ^ W - 1 := by
        rw [Nat.zero_or]
        exact uint_mask_ones (by omega) (by omega)
      rw [hmask, Nat.xor_self]
      have hscrub : (input.drop 11).map (fun b => b &&& 0) = List.replicate (ilen - 11) 0 := by
        simp only [Nat.and_zero]
        rw [List.map_const', List.length_drop, hlen]
      rw [hscrub, Nat.sub_self]
      have htake11 : (input.take 11).length = 11 := by
        rw [List.length_take]
        omega
      have hregion : (input.take 11 ++ List.replicate (ilen - 11) 0).drop (ilen - pms) =
          List.replicate pms 0 := by
        rw [drop_append_ge _ _ _ (by omega), htake11, List.drop_replicate]
        congr 1
        omega
      rw [hregion]
      have hmoved : mbedtls_ct_mem_move_to_left W pms 0 (List.replicate pms 0) =
          List.replicate pms 0 := by
        rw [mem_move_to_left_eq _ hWpos (List.length_replicate pms 0) (by omega) (by omega)
          (by
            intro x hx
            rw [List.eq_of_mem_replicate hx]
            exact Nat.two_pow_pos W)]
        simp
      rw [hmoved]
      have hi2len : (input.take 11 ++ List.replicate (ilen - 11) 0).length = ilen := by
        rw [List.length_append, htake11, List.length_replicate]
        omega
      have hout : ((input.take 11 ++ List.replicate (ilen - 11) 0).take (ilen - pms) ++
          List.replicate pms 0).drop (ilen - pms) = List.replicate pms 0 := by
        apply List.drop_left'
        rw [List.length_take, hi2len]
        omega
      rw [hout]
      have htakemoved : (List.replicate pms 0).take pms = List.replicate pms 0 := by
        rw [List.take_replicate, min_self]
      rw [htakemoved]
      refine ⟨?_, ?_, ?_⟩
      · rw [if_neg hBad, if_pos (show pms < unpadPSize input ilen from by
          rw [hpsize_eq]
          omega)]
        norm_num [MBEDTLS_ERR_RSA_OUTPUT_TOO_LARGE]
      · rw [if_pos hor2]
      · rw [if_pos hor2]
        by_cases h0 : output_max_len = 0
        · rw [if_neg (show ¬ output_max_len ≠ 0 from by omega), if_pos h0]
        · rw [if_pos (show output_max_len ≠ 0 from h0), if_neg h0]
    · rw [if_neg hO]
      have hnor : ¬ (unpadBadCond input ∨ unpadPMS ilen output_max_len < unpadPSize input ilen) := by
        rintro (h | h)
        · exact hBad h
        · rw [hpsize_eq] at h
          omega
      have hiff0 : mbedtls_ct_uint_if W 0 17152 0 = 0 := by
        rw [uint_if_eq (Nat.two_pow_pos W) h17152 (Nat.two_pow_pos W), if_pos rfl]
      rw [hiff0]
      have hretv : mbedtls_ct_uint_if W 0 16640 0 = 0 := by
        rw [uint_if_eq (Nat.two_pow_pos W) h16640 (Nat.two_pow_pos W), if_pos rfl]
      rw [hretv]
      have hps2 : mbedtls_ct_uint_if W 0 pms (ilen - pc - 3) = ilen - pc - 3 := by
        rw [uint_if_eq (Nat.two_pow_pos W) hpms_lt hpsz_lt, if_pos rfl]
      rw [hps2]
      have hmask : mbedtls_ct_uint_mask W (0 ||| 0) = 0 := by
        rw [Nat.zero_or]
        exact uint_mask_zero W
      rw [hmask, Nat.zero_xor]
      have hscrub : (input.drop 11).map (fun b => b &&& (2 ^ W - 1)) = input.drop 11 := by
        have h := List.map_congr_left (l := input.drop 11)
          (f := fun b => b &&& (2 ^ W - 1)) (g := fun b => b)
          (fun a ha => Nat.and_pow_two_sub_one_of_lt_two_pow
            (lt_of_lt_of_le (hbytes a (List.mem_of_mem_drop ha)) h256))
        rw [h, List.map_id']
      rw [hscrub, List.take_append_drop]
      have hregionlen : (input.drop (ilen - pms)).length = pms := by
        rw [List.length_drop, hlen]
        omega
      have hmoved : mbedtls_ct_mem_move_to_left W pms (pms - (ilen - pc - 3))
          (input.drop (ilen - pms)) =
          input.drop (ilen - (ilen - pc - 3)) ++ List.replicate (pms - (ilen - pc - 3)) 0 := by
        rw [mem_move_to_left_eq _ hWpos hregionlen (by omega) (by omega)
          (fun x hx => lt_of_lt_of_le (hbytes x (List.mem_of_mem_drop hx)) h256)]
        rw [List.drop_drop]
        congr 2
        omega
      rw [hmoved]
      have hout : ((input.take (ilen - pms)) ++
          (input.drop (ilen - (ilen - pc - 3)) ++ List.replicate (pms - (ilen - pc - 3)) 0)).drop
            (ilen - pms) =
          input.drop (ilen - (ilen - pc - 3)) ++ List.replicate (pms - (ilen - pc - 3)) 0 := by
        apply List.drop_left'
        rw [List.length_take, hlen]
        omega
      rw [hout]
      have htakemoved : (input.drop (ilen - (ilen - pc - 3)) ++
          List.replicate (pms - (ilen - pc - 3)) 0).take pms =
          input.drop (ilen - (ilen - pc - 3)) ++ List.replicate (pms - (ilen - pc - 3)) 0 :=
        List.take_of_length_le (by
          rw [List.length_append, List.length_drop, hlen, List.length_replicate]
          omega)
      rw [htakemoved]
      refine ⟨?_, ?_, ?_⟩
      · rw [if_neg hBad, if_neg (show ¬ pms < unpadPSize input ilen from by
          rw [hpsize_eq]
          omega)]
        norm_num
      · rw [if_neg hnor, hpsize_eq]
      · rw [if_neg hnor]
        by_cases h0 : output_max_len = 0
        · rw [if_neg (show ¬ output_max_len ≠ 0 from by omega), if_pos h0]
        · rw [if_pos (show output_max_len ≠ 0 from h0), if_neg h0, hpsize_eq,
            List.append_assoc]

/-! ### Claim C3: error dominance of the unpadding -/

/-- C3: `mbedtls_ct_rsaes_pkcs1_v15_unpadding` returns the invalid-padding
error exactly when `input[0] ≠ 0x00`, `input[1] ≠ 0x02`, no `0x00` separator
occurs in `input[2..ilen)`, or fewer than 8 nonzero padding bytes precede
the separator; this error dominates output-too-large, which dominates
success (return 0). -/
theorem C3_error_dominance (W : ℕ) (input : List ℕ) (ilen output_max_len : ℕ)
    (output : List ℕ) (hlen : input.length = ilen) (h11 : 11 ≤ ilen)
    (hsmall : ilen < 2 ^ (W - 1)) (hW : 16 ≤ W) (hbytes : ∀ x ∈ input, x < 256) :
    ((mbedtls_ct_rsaes_pkcs1_v15_unpadding W input ilen output output_max_len).ret =
        MBEDTLS_ERR_RSA_INVALID_PADDING ↔ unpadBadCond input) ∧
      (¬ unpadBadCond input →
        ((mbedtls_ct_rsaes_pkcs1_v15_unpadding W input ilen output output_max_len).ret =
          MBEDTLS_ERR_RSA_OUTPUT_TOO_LARGE ↔
            unpadPMS ilen output_max_len < unpadPSize input ilen)) ∧
      (¬ unpadBadCond input → ¬ unpadPMS ilen output_max_len < unpadPSize input ilen →
        (mbedtls_ct_rsaes_pkcs1_v15_unpadding W input ilen output output_max_len).ret = 0) := by
  obtain ⟨hr, -, -⟩ := unpad_eval W input ilen output_max_len output hlen h11 hsmall hW hbytes
  refine ⟨?_, ?_, ?_⟩
  · constructor
    · intro h
      by_contra hbc
      rw [hr, if_neg hbc] at h
      split_ifs at h with h2
      · norm_num [MBEDTLS_ERR_RSA_INVALID_PADDING, MBEDTLS_ERR_RSA_OUTPUT_TOO_LARGE] at h
      · norm_num [MBEDTLS_ERR_RSA_INVALID_PADDING] at h
    · intro h
      rw [hr, if_pos h]
  · intro hn
    rw [hr, if_neg hn]
    constructor
    · intro h
      by_contra h2
      rw [if_neg h2] at h
      norm_num [MBEDTLS_ERR_RSA_OUTPUT_TOO_LARGE] at h
    · intro h
      rw [if_pos h]
  · intro hn h2
    rw [hr, if_neg hn, if_neg h2]

/-- C3 witness: the theorem applied at `W = 16` to the 11-byte block
`01 02 || 9 × 01` (bad leading byte), `output_max_len = 1`. -/
theorem C3_witness :
    ([1, 2, 1, 1, 1, 1, 1, 1, 1, 1, 1] : List ℕ).length = 11 ∧ (11 : ℕ) ≤ 11 ∧
      (11 : ℕ) < 2 ^ (16 - 1) ∧ (16 : ℕ) ≤ 16 ∧
      (∀ x ∈ ([1, 2, 1, 1, 1, 1, 1, 1, 1, 1, 1] : List ℕ), x < 256) ∧
      (((mbedtls_ct_rsaes_pkcs1_v15_unpadding 16 [1, 2, 1, 1, 1, 1, 1, 1, 1, 1, 1] 11 [7] 1).ret =
          MBEDTLS_ERR_RSA_INVALID_PADDING ↔ unpadBadCond [1, 2, 1, 1, 1, 1, 1, 1, 1, 1, 1]) ∧
        (¬ unpadBadCond [1, 2, 1, 1, 1, 1, 1, 1, 1, 1, 1] →
          ((mbedtls_ct_rsaes_pkcs1_v15_unpadding 16 [1, 2, 1, 1, 1, 1, 1, 1, 1, 1, 1] 11 [7] 1).ret =
            MBEDTLS_ERR_RSA_OUTPUT_TOO_LARGE ↔
              unpadPMS 11 1 < unpadPSize [1, 2, 1, 1, 1, 1, 1, 1, 1, 1, 1] 11)) ∧
        (¬ unpadBadCond [1, 2, 1, 1, 1, 1, 1, 1, 1, 1, 1] →
          ¬ unpadPMS 11 1 < unpadPSize [1, 2, 1, 1, 1, 1, 1, 1, 1, 1, 1] 11 →
          (mbedtls_ct_rsaes_pkcs1_v15_unpadding 16
            [1, 2, 1, 1, 1, 1, 1, 1, 1, 1, 1] 11 [7] 1).ret = 0)) :=
  ⟨by decide, by decide, by decide, by decide, by decide,
    C3_error_dominance 16 [1, 2, 1, 1, 1, 1, 1, 1, 1, 1, 1] 11 1 [7]
      (by decide) (by decide) (by decide) (by decide) (by decide)⟩

/-! ### Claim C10: error-path outputs are functions of the public lengths -/

/-- C10: whenever the unpadding (with `ilen ≥ 11`) returns a nonzero error,
`*olen` is exactly `plaintext_max_size = min(output_max_len, ilen - 11)`,
and when `output_max_len > 0` every byte written to
`output[0..plaintext_max_size)` is zero. -/
theorem C10_error_path (W : ℕ) (input : List ℕ) (ilen output_max_len : ℕ)
    (output : List ℕ) (hlen : input.length = ilen) (h11 : 11 ≤ ilen)
    (hsmall : ilen < 2 ^ (W - 1)) (hW : 16 ≤ W) (hbytes : ∀ x ∈ input, x < 256)
    (hret : (mbedtls_ct_rsaes_pkcs1_v15_unpadding W input ilen output output_max_len).ret ≠ 0) :
    (mbedtls_ct_rsaes_pkcs1_v15_unpadding W input ilen output output_max_len).olen =
        unpadPMS ilen output_max_len ∧
      (0 < output_max_len →
        (mbedtls_ct_rsaes_pkcs1_v15_unpadding W input ilen output output_max_len).output.take
            (unpadPMS ilen output_max_len) =
          List.replicate (unpadPMS ilen output_max_len) 0) := by
  obtain ⟨hr, ho, hout⟩ := unpad_eval W input ilen output_max_len output hlen h11 hsmall hW hbytes
  have hcond : unpadBadCond input ∨ unpadPMS ilen output_max_len < unpadPSize input ilen := by
    by_contra hno
    obtain ⟨hA, hB⟩ := not_or.1 hno
    rw [hr, if_neg hA, if_neg hB] at hret
    exact hret rfl
  constructor
  · rw [ho, if_pos hcond]
  · intro h0
    rw [hout, if_neg (show ¬ output_max_len = 0 from by omega), if_pos hcond]
    exact List.take_left' (List.length_replicate _ _)

/-- C10 witness: the theorem applied at `W = 16` to the bad block
`01 02 || 9 × 01` with `output_max_len = 1` (the returned error is
invalid-padding, `plaintext_max_size = 0`). -/
theorem C10_witness :
    ([1, 2, 1, 1, 1, 1, 1, 1, 1, 1, 1] : List ℕ).length = 11 ∧ (11 : ℕ) ≤ 11 ∧
      (11 : ℕ) < 2 ^ (16 - 1) ∧ (16 : ℕ) ≤ 16 ∧
      (∀ x ∈ ([1, 2, 1, 1, 1, 1, 1, 1, 1, 1, 1] : List ℕ), x < 256) ∧
      (mbedtls_ct_rsaes_pkcs1_v15_unpadding 16
        [1, 2, 1, 1, 1, 1, 1, 1, 1, 1, 1] 11 [7] 1).ret ≠ 0 ∧
      ((mbedtls_ct_rsaes_pkcs1_v15_unpadding 16
          [1, 2, 1, 1, 1, 1, 1, 1, 1, 1, 1] 11 [7] 1).olen = unpadPMS 11 1 ∧
        (0 < 1 →
          (mbedtls_ct_rsaes_pkcs1_v15_unpadding 16
            [1, 2, 1, 1, 1, 1, 1, 1, 1, 1, 1] 11 [7] 1).output.take (unpadPMS 11 1) =
            List.replicate (unpadPMS 11 1) 0)) :=
  ⟨by decide, by decide, by decide, by decide, by decide, by decide,
    C10_error_path 16 [1, 2, 1, 1, 1, 1, 1, 1, 1, 1, 1] 11 1 [7]
      (by decide) (by decide) (by decide) (by decide) (by decide) (by decide)⟩

/-! ### Claims C1 and C2: success and output-too-large paths -/

lemma wellformed_facts (W : ℕ) (PS M : List ℕ)
    (hPSnz : ∀ x ∈ PS, x ≠ 0) (hPS8 : 8 ≤ PS.length)
    (hPSb : ∀ x ∈ PS, x < 256) (hMb : ∀ x ∈ M, x < 256) :
    (0 :: MBEDTLS_RSA_CRYPT :: (PS ++ 0 :: M)).length = 3 + PS.length + M.length ∧
      (∀ x ∈ 0 :: MBEDTLS_RSA_CRYPT :: (PS ++ 0 :: M), x < 256) ∧
      unpadPC (0 :: MBEDTLS_RSA_CRYPT :: (PS ++ 0 :: M)) = PS.length ∧
      ¬ unpadBadCond (0 :: MBEDTLS_RSA_CRYPT :: (PS ++ 0 :: M)) ∧
      unpadPSize (0 :: MBEDTLS_RSA_CRYPT :: (PS ++ 0 :: M)) (3 + PS.length + M.length) =
        M.length := by
  have hdrop : (0 :: MBEDTLS_RSA_CRYPT :: (PS ++ 0 :: M)).drop 2 = PS ++ 0 :: M := rfl
  have hlen : (0 :: MBEDTLS_RSA_CRYPT :: (PS ++ 0 :: M)).length = 3 + PS.length + M.length := by
    simp [List.length_append]
    omega
  have hpc : unpadPC (0 :: MBEDTLS_RSA_CRYPT :: (PS ++ 0 :: M)) = PS.length := by
    unfold unpadPC
    rw [hdrop, takeWhile_ne_zero_append PS M hPSnz]
  refine ⟨hlen, ?_, hpc, ?_, ?_⟩
  · intro x hx
    rcases List.mem_cons.1 hx with rfl | hx
    · omega
    rcases List.mem_cons.1 hx with rfl | hx
    · norm_num [MBEDTLS_RSA_CRYPT]
    rcases List.mem_append.1 hx with hx | hx
    · exact hPSb x hx
    rcases List.mem_cons.1 hx with rfl | hx
    · omega
    · exact hMb x hx
  · intro hc
    rcases hc with h | h | h | h
    · exact h (by rw [List.getD_cons_zero])
    · exact h (by rw [List.getD_cons_succ, List.getD_cons_zero])
    · rw [hdrop] at h
      exact h 0 (by simp) rfl
    · rw [hpc] at h
      omega
  · unfold unpadPSize
    rw [hpc]
    omega

lemma wellformed_drop (PS M : List ℕ) :
    (0 :: MBEDTLS_RSA_CRYPT :: (PS ++ 0 :: M)).drop (3 + PS.length) = M := by
  have h1 : (3 : ℕ) + PS.length = 2 + (PS.length + 1) := by omega
  rw [h1, ← List.drop_drop]
  have hdrop : (0 :: MBEDTLS_RSA_CRYPT :: (PS ++ 0 :: M)).drop 2 = PS ++ 0 :: M := rfl
  rw [hdrop, drop_append_ge PS (0 :: M) (PS.length + 1) (by omega)]
  rw [show PS.length + 1 - PS.length = 1 from by omega]
  rfl

/-- C1: on a well-formed block `00 02 || PS || 00 || M` with at least 8
nonzero pad bytes, `output_max_len > 0` and
`|M| ≤ min(output_max_len, ilen - 11)`, the unpadding returns 0, sets
`*olen = |M|` and writes `M` to `output[0..|M|)`. -/
theorem C1_success (W : ℕ) (PS M : List ℕ) (output_max_len : ℕ) (output : List ℕ)
    (hPSnz : ∀ x ∈ PS, x ≠ 0) (hPS8 : 8 ≤ PS.length)
    (hPSb : ∀ x ∈ PS, x < 256) (hMb : ∀ x ∈ M, x < 256)
    (homl : 0 < output_max_len)
    (hM : M.length ≤ min output_max_len (3 + PS.length + M.length - 11))
    (hsmall : 3 + PS.length + M.length < 2 ^ (W - 1)) (hW : 16 ≤ W) :
    (mbedtls_ct_rsaes_pkcs1_v15_unpadding W (0 :: MBEDTLS_RSA_CRYPT :: (PS ++ 0 :: M))
        (3 + PS.length + M.length) output output_max_len).ret = 0 ∧
      (mbedtls_ct_rsaes_pkcs1_v15_unpadding W (0 :: MBEDTLS_RSA_CRYPT :: (PS ++ 0 :: M))
        (3 + PS.length + M.length) output output_max_len).olen = M.length ∧
      (mbedtls_ct_rsaes_pkcs1_v15_unpadding W (0 :: MBEDTLS_RSA_CRYPT :: (PS ++ 0 :: M))
        (3 + PS.length + M.length) output output_max_len).output.take M.length = M := by
  obtain ⟨hlen, hbytes, hpc, hbadF, hpsize⟩ := wellformed_facts W PS M hPSnz hPS8 hPSb hMb
  have h11 : 11 ≤ 3 + PS.length + M.length := by omega
  obtain ⟨hr, ho, hout⟩ := unpad_eval W (0 :: MBEDTLS_RSA_CRYPT :: (PS ++ 0 :: M))
    (3 + PS.length + M.length) output_max_len output hlen h11 hsmall hW hbytes
  have hpms : M.length ≤ unpadPMS (3 + PS.length + M.length) output_max_len := by
    unfold unpadPMS
    omega
  have hnlt : ¬ unpadPMS (3 + PS.length + M.length) output_max_len <
      unpadPSize (0 :: MBEDTLS_RSA_CRYPT :: (PS ++ 0 :: M)) (3 + PS.length + M.length) := by
    rw [hpsize]
    omega
  refine ⟨?_, ?_, ?_⟩
  · rw [hr, if_neg hbadF, if_neg hnlt]
  · rw [ho, if_neg (not_or.2 ⟨hbadF, hnlt⟩), hpsize]
  · rw [hout, if_neg (show ¬ output_max_len = 0 from by omega),
      if_neg (not_or.2 ⟨hbadF, hnlt⟩), hpsize]
    rw [show 3 + PS.length + M.length - M.length = 3 + PS.length from by omega]
    rw [wellformed_drop PS M, List.append_assoc]
    exact List.take_left' rfl

/-- C1 witness: the theorem applied at `W = 16`, `PS = 8 × 01`,
`M = [72]`, `output_max_len = 1`. -/
theorem C1_witness :
    (∀ x ∈ ([1, 1, 1, 1, 1, 1, 1, 1] : List ℕ), x ≠ 0) ∧
      (8 : ℕ) ≤ 8 ∧ (∀ x ∈ ([1, 1, 1, 1, 1, 1, 1, 1] : List ℕ), x < 256) ∧
      (∀ x ∈ ([72] : List ℕ), x < 256) ∧ (0 : ℕ) < 1 ∧
      ([72] : List ℕ).length ≤ min 1 (3 + 8 + 1 - 11) ∧
      (3 + 8 + 1 : ℕ) < 2 ^ (16 - 1) ∧ (16 : ℕ) ≤ 16 ∧
      ((mbedtls_ct_rsaes_pkcs1_v15_unpadding 16
          (0 :: MBEDTLS_RSA_CRYPT :: ([1, 1, 1, 1, 1, 1, 1, 1] ++ 0 :: [72]))
          (3 + ([1, 1, 1, 1, 1, 1, 1, 1] : List ℕ).length + ([72] : List ℕ).length) [9] 1).ret = 0 ∧
        (mbedtls_ct_rsaes_pkcs1_v15_unpadding 16
          (0 :: MBEDTLS_RSA_CRYPT :: ([1, 1, 1, 1, 1, 1, 1, 1] ++ 0 :: [72]))
          (3 + ([1, 1, 1, 1, 1, 1, 1, 1] : List ℕ).length + ([72] : List ℕ).length) [9] 1).olen =
            ([72] : List ℕ).length ∧
        (mbedtls_ct_rsaes_pkcs1_v15_unpadding 16
          (0 :: MBEDTLS_RSA_CRYPT :: ([1, 1, 1, 1, 1, 1, 1, 1] ++ 0 :: [72]))
          (3 + ([1, 1, 1, 1, 1, 1, 1, 1] : List ℕ).length + ([72] : List ℕ).length)
          [9] 1).output.take ([72] : List ℕ).length = [72]) :=
  ⟨by decide, by decide, by decide, by decide, by decide, by decide, by decide, by decide,
    C1_success 16 [1, 1, 1, 1, 1, 1, 1, 1] [72] 1 [9]
      (by decide) (by decide) (by decide) (by decide) (by decide) (by decide) (by decide)
      (by decide)⟩

/-- C2 counterexample: at `W = 16`, for the valid block
`00 02 || 8 × 01 || 00 || 41 42` (`ilen = 13`, plaintext `[0x41, 0x42]`)
with `output_max_len = 1`, the function returns the output-too-large error
but writes a zero byte — not the plaintext prefix `0x41` — to the output:
the too-large path scrubs `input[11..)` before the copy. -/
theorem C2_counterexample :
    (mbedtls_ct_rsaes_pkcs1_v15_unpadding 16
        [0, 2, 1, 1, 1, 1, 1, 1, 1, 1, 0, 65, 66] 13 [9] 1).ret =
      MBEDTLS_ERR_RSA_OUTPUT_TOO_LARGE ∧
      (mbedtls_ct_rsaes_pkcs1_v15_unpadding 16
        [0, 2, 1, 1, 1, 1, 1, 1, 1, 1, 0, 65, 66] 13 [9] 1).output.take 1 = [0] ∧
      ([0] : List ℕ) ≠ [65] := by
  decide

/-- C2 (amended): on a valid block whose plaintext exceeds
`plaintext_max_size = min(output_max_len, ilen - 11)`, the unpadding returns
the output-too-large error and `output[0..output_max_len)` is all zeros
(the plaintext is scrubbed, not truncated into the output). -/
theorem C2_output_too_large (W : ℕ) (PS M : List ℕ) (output_max_len : ℕ) (output : List ℕ)
    (hPSnz : ∀ x ∈ PS, x ≠ 0) (hPS8 : 8 ≤ PS.length)
    (hPSb : ∀ x ∈ PS, x < 256) (hMb : ∀ x ∈ M, x < 256)
    (hbig : min output_max_len (3 + PS.length + M.length - 11) < M.length)
    (hsmall : 3 + PS.length + M.length < 2 ^ (W - 1)) (hW : 16 ≤ W) :
    (mbedtls_ct_rsaes_pkcs1_v15_unpadding W (0 :: MBEDTLS_RSA_CRYPT :: (PS ++ 0 :: M))
        (3 + PS.length + M.length) output output_max_len).ret =
      MBEDTLS_ERR_RSA_OUTPUT_TOO_LARGE ∧
      (mbedtls_ct_rsaes_pkcs1_v15_unpadding W (0 :: MBEDTLS_RSA_CRYPT :: (PS ++ 0 :: M))
        (3 + PS.length + M.length) output output_max_len).output.take output_max_len =
        List.replicate output_max_len 0 := by
  obtain ⟨hlen, hbytes, hpc, hbadF, hpsize⟩ := wellformed_facts W PS M hPSnz hPS8 hPSb hMb
  have h11 : 11 ≤ 3 + PS.length + M.length := by omega
  obtain ⟨hr, ho, hout⟩ := unpad_eval W (0 :: MBEDTLS_RSA_CRYPT :: (PS ++ 0 :: M))
    (3 + PS.length + M.length) output_max_len output hlen h11 hsmall hW hbytes
  have hpmseq : unpadPMS (3 + PS.length + M.length) output_max_len = output_max_len := by
    unfold unpadPMS
    omega
  have hlt : unpadPMS (3 + PS.length + M.length) output_max_len <
      unpadPSize (0 :: MBEDTLS_RSA_CRYPT :: (PS ++ 0 :: M)) (3 + PS.length + M.length) := by
    rw [hpsize, hpmseq]
    omega
  constructor
  · rw [hr, if_neg hbadF, if_pos hlt]
  · by_cases h0 : output_max_len = 0
    · subst h0
      simp
    · rw [hout, if_neg h0, if_pos (Or.inr hlt), hpmseq]
      exact List.take_left' (List.length_replicate _ _)

/-- C2 witness: the amended theorem applied at `W = 16`, `PS = 8 × 01`,
`M = [65, 66]`, `output_max_len = 1`. -/
theorem C2_witness :
    (∀ x ∈ ([1, 1, 1, 1, 1, 1, 1, 1] : List ℕ), x ≠ 0) ∧
      (8 : ℕ) ≤ 8 ∧ (∀ x ∈ ([1, 1, 1, 1, 1, 1, 1, 1] : List ℕ), x < 256) ∧
      (∀ x ∈ ([65, 66] : List ℕ), x < 256) ∧
      min 1 (3 + 8 + 2 - 11) < ([65, 66] : List ℕ).length ∧
      (3 + 8 + 2 : ℕ) < 2 ^ (16 - 1) ∧ (16 : ℕ) ≤ 16 ∧
      ((mbedtls_ct_rsaes_pkcs1_v15_unpadding 16
          (0 :: MBEDTLS_RSA_CRYPT :: ([1, 1, 1, 1, 1, 1, 1, 1] ++ 0 :: [65, 66]))
          (3 + ([1, 1, 1, 1, 1, 1, 1, 1] : List ℕ).length + ([65, 66] : List ℕ).length)
          [9] 1).ret = MBEDTLS_ERR_RSA_OUTPUT_TOO_LARGE ∧
        (mbedtls_ct_rsaes_pkcs1_v15_unpadding 16
          (0 :: MBEDTLS_RSA_CRYPT :: ([1, 1, 1, 1, 1, 1, 1, 1] ++ 0 :: [65, 66]))
          (3 + ([1, 1, 1, 1, 1, 1, 1, 1] : List ℕ).length + ([65, 66] : List ℕ).length)
          [9] 1).output.take 1 = List.replicate 1 0) :=
  ⟨by decide, by decide, by decide, by decide, by decide, by decide, by decide,
    C2_output_too_large 16 [1, 1, 1, 1, 1, 1, 1, 1] [65, 66] 1 [9]
      (by decide) (by decide) (by decide) (by decide) (by decide) (by decide) (by decide)⟩

/-! ### Multi-precision integers -/

/-- The `mbedtls_mpi` struct: sign `s ∈ {1, -1}`, limb count `n`, limbs `p`
(least significant first). -/
structure mbedtls_mpi where
  s : ℤ
  n : ℕ
  p : List ℕ
  deriving DecidableEq, Repr

/-- Value of a little-endian limb sequence. -/
def leVal (W : ℕ) : List ℕ → ℕ
  | [] => 0
  | a :: as => a + 2 ^ W * leVal W as

/-- Value of a big-endian (most significant first) limb sequence. -/
def beVal (W : ℕ) : List ℕ → ℕ
  | [] => 0
  | a :: as => a * 2 ^ (W * as.length) + beVal W as

/-- Signed value of an `mbedtls_mpi`. -/
def mpiVal (W : ℕ) (X : mbedtls_mpi) : ℤ := X.s * leVal W X.p

/-- The limb-walk of `mbedtls_mpi_lt_mpi_ct`, from the most significant limb
(the source iterates `i = n` down to `1`; here the reversed limb lists are
walked head first), threading the `(ret, done)` flag pair. -/
def lt_loop (W Xneg : ℕ) : List ℕ → List ℕ → ℕ × ℕ → ℕ × ℕ
  | a :: as, b :: bs, (ret, done) =>
    let cond1 := mbedtls_ct_mpi_uint_lt W b a
    let ret1 := ret ||| (cond1 &&& (1 - done) &&& Xneg)
    let done1 := done ||| cond1
    let cond2 := mbedtls_ct_mpi_uint_lt W a b
    let ret2 := ret1 ||| (cond2 &&& (1 - done1) &&& (1 - Xneg))
    let done2 := done1 ||| cond2
    lt_loop W Xneg as bs (ret2, done2)
  | _, _, st => st

/-- `mbedtls_mpi_lt_mpi_ct` from the source: fails with bad-input when the
limb counts differ (`*ret` is then never written, modelled by `none`),
otherwise seeds `(ret, done)` from the sign bits and walks the limbs. -/
def mbedtls_mpi_lt_mpi_ct (W : ℕ) (X Y : mbedtls_mpi) : ℤ × Option ℕ :=
  if X.n ≠ Y.n then (MBEDTLS_ERR_MPI_BAD_INPUT_DATA, none)
  else
    let X_is_negative := (Int.land X.s 2).toNat >>> 1
    let Y_is_negative := (Int.land Y.s 2).toNat >>> 1
    let cond := X_is_negative ^^^ Y_is_negative
    let ret0 := cond &&& X_is_negative
    let done0 := cond
    let r := lt_loop W X_is_negative X.p.reverse Y.p.reverse (ret0, done0)
    (0, some r.1)

lemma beVal_lt {W : ℕ} : ∀ l : List ℕ, (∀ x ∈ l, x < 2 ^ W) →
    beVal W l < 2 ^ (W * l.length) := by
  intro l
  induction l with
  | nil => intro _; simp [beVal]
  | cons a as ih =>
    intro hb
    have ha : a < 2 ^ W := hb a (by simp)
    have ht := ih fun x hx => hb x (List.mem_cons_of_mem a hx)
    simp only [beVal, List.length_cons]
    have hpow : 2 ^ (W * (as.length + 1)) = 2 ^ W * 2 ^ (W * as.length) := by
      rw [← pow_add]
      congr 1
      ring
    have hp : 0 < 2 ^ (W * as.length) := Nat.two_pow_pos _
    calc a * 2 ^ (W * as.length) + beVal W as
        < a * 2 ^ (W * as.length) + 2 ^ (W * as.length) := by omega
      _ = (a + 1) * 2 ^ (W * as.length) := by ring
      _ ≤ 2 ^ W * 2 ^ (W * as.length) := Nat.mul_le_mul_right _ (by omega)
      _ = 2 ^ (W * (as.length + 1)) := hpow.symm

lemma beVal_head_lt {W : ℕ} {a b : ℕ} {as bs : List ℕ} (h : a < b)
    (hlen : as.length = bs.length) (ha : ∀ x ∈ as, x < 2 ^ W) :
    beVal W (a :: as) < beVal W (b :: bs) := by
  have h1 : beVal W as < 2 ^ (W * as.length) := beVal_lt as ha
  simp only [beVal]
  calc a * 2 ^ (W * as.length) + beVal W as
      < a * 2 ^ (W * as.length) + 2 ^ (W * as.length) := by omega
    _ = (a + 1) * 2 ^ (W * as.length) := by ring
    _ ≤ b * 2 ^ (W * as.length) := Nat.mul_le_mul_right _ (by omega)
    _ = b * 2 ^ (W * bs.length) := by rw [hlen]
    _ ≤ b * 2 ^ (W * bs.length) + beVal W bs := Nat.le_add_right _ _

lemma beVal_append (W : ℕ) : ∀ l1 l2 : List ℕ,
    beVal W (l1 ++ l2) = beVal W l1 * 2 ^ (W * l2.length) + beVal W l2 := by
  intro l1
  induction l1 with
  | nil => intro l2; simp [beVal]
  | cons a t ih =>
    intro l2
    simp only [List.cons_append, beVal, List.length_append, List.append_eq]
    rw [ih l2]
    have hpow : 2 ^ (W * (t.length + l2.length)) =
        2 ^ (W * t.length) * 2 ^ (W * l2.length) := by
      rw [← pow_add]
      congr 1
      ring
    rw [hpow]
    ring

lemma beVal_reverse (W : ℕ) : ∀ l : List ℕ, beVal W l.reverse = leVal W l := by
  intro l
  induction l with
  | nil => rfl
  | cons a t ih =>
    rw [List.reverse_cons, beVal_append, ih]
    have h1 : beVal W [a] = a := by simp [beVal]
    rw [h1]
    simp only [List.length_cons, List.length_nil, leVal]
    ring

lemma leVal_replicate_zero (W : ℕ) : ∀ k, leVal W (List.replicate k 0) = 0 := by
  intro k
  induction k with
  | zero => rfl
  | succ k ih => simp [List.replicate_succ, leVal, ih]

lemma leVal_append_zeros (W : ℕ) : ∀ (l : List ℕ) (k : ℕ),
    leVal W (l ++ List.replicate k 0) = leVal W l := by
  intro l
  induction l with
  | nil =>
    intro k
    simp [leVal_replicate_zero, leVal]
  | cons a t ih =>
    intro k
    simp only [List.cons_append, leVal, List.append_eq]
    rw [ih]

lemma lt_loop_done {W Xneg : ℕ} (hW : 0 < W) : ∀ (as bs : List ℕ) (r : ℕ),
    (∀ x ∈ as, x < 2 ^ W) → (∀ x ∈ bs, x < 2 ^ W) →
    lt_loop W Xneg as bs (r, 1) = (r, 1) := by
  intro as
  induction as with
  | nil => intro bs r _ _; cases bs <;> rfl
  | cons a as ih =>
    intro bs r ha hb
    cases bs with
    | nil => rfl
    | cons b bs =>
      have haa : a < 2 ^ W := ha a (by simp)
      have hbb : b < 2 ^ W := hb b (by simp)
      simp only [lt_loop]
      rw [mpi_uint_lt_correct hW hbb haa, mpi_uint_lt_correct hW haa hbb]
      have has : ∀ x ∈ as, x < 2 ^ W := fun x hx => ha x (List.mem_cons_of_mem a hx)
      have hbs : ∀ x ∈ bs, x < 2 ^ W := fun x hx => hb x (List.mem_cons_of_mem b hx)
      rcases Nat.lt_trichotomy a b with h | h | h
      · rw [if_neg (by omega), if_pos h]
        simp only [Nat.zero_and, Nat.and_zero, Nat.and_self, Nat.zero_or, Nat.or_zero,
          Nat.or_self, Nat.sub_zero, Nat.sub_self]
        exact ih bs r has hbs
      · rw [if_neg (by omega), if_neg (by omega)]
        simp only [Nat.zero_and, Nat.and_zero, Nat.and_self, Nat.zero_or, Nat.or_zero,
          Nat.or_self, Nat.sub_zero, Nat.sub_self]
        exact ih bs r has hbs
      · rw [if_pos h, if_neg (by omega)]
        simp only [Nat.zero_and, Nat.and_zero, Nat.and_self, Nat.zero_or, Nat.or_zero,
          Nat.or_self, Nat.sub_zero, Nat.sub_self]
        exact ih bs r has hbs

lemma lt_loop_main {W Xneg : ℕ} (hW : 0 < W) (hXn : Xneg ≤ 1) :
    ∀ (as bs : List ℕ), as.length = bs.length →
    (∀ x ∈ as, x < 2 ^ W) → (∀ x ∈ bs, x < 2 ^ W) →
    lt_loop W Xneg as bs (0, 0) =
      ((if Xneg = 0 then (if beVal W as < beVal W bs then 1 else 0)
        else (if beVal W bs < beVal W as then 1 else 0)),
       if as = bs then 0 else 1) := by
  intro as
  induction as with
  | nil =>
    intro bs hlen _ _
    cases bs with
    | nil => simp [lt_loop, beVal]
    | cons b bs => simp at hlen
  | cons a as ih =>
    intro bs hlen ha hb
    cases bs with
    | nil => simp at hlen
    | cons b bs =>
      have haa : a < 2 ^ W := ha a (by simp)
      have hbb : b < 2 ^ W := hb b (by simp)
      have has : ∀ x ∈ as, x < 2 ^ W := fun x hx => ha x (List.mem_cons_of_mem a hx)
      have hbs : ∀ x ∈ bs, x < 2 ^ W := fun x hx => hb x (List.mem_cons_of_mem b hx)
      have hlen' : as.length = bs.length := by simpa using hlen
      simp only [lt_loop]
      rw [mpi_uint_lt_correct hW hbb haa, mpi_uint_lt_correct hW haa hbb]
      rcases Nat.lt_trichotomy a b with h | h | h
      · -- a < b: decided at this limb
        rw [if_neg (show ¬ b < a from by omega), if_pos h]
        have hv : beVal W (a :: as) < beVal W (b :: bs) := beVal_head_lt h hlen' has
        have hne : (a :: as) ≠ (b :: bs) := by
          intro heq
          rw [List.cons.injEq] at heq
          exact absurd heq.1 (by omega)
        rcases (by omega : Xneg = 0 ∨ Xneg = 1) with h0 | h0 <;> subst h0
        · simp only [Nat.zero_and, Nat.and_zero, Nat.and_self, Nat.zero_or, Nat.or_zero,
            Nat.or_self, Nat.sub_zero, Nat.sub_self]
          rw [lt_loop_done hW as bs 1 has hbs]
          simp [hv, hne]
        · simp only [Nat.zero_and, Nat.and_zero, Nat.and_self, Nat.zero_or, Nat.or_zero,
            Nat.or_self, Nat.sub_zero, Nat.sub_self]
          rw [lt_loop_done hW as bs 0 has hbs]
          have hnv : ¬ beVal W (b :: bs) < beVal W (a :: as) := by omega
          simp [hnv, hne]
      · -- equal limbs: continue the walk
        subst h
        rw [if_neg (show ¬ a < a from by omega)]
        simp only [Nat.zero_and, Nat.and_zero, Nat.and_self, Nat.zero_or, Nat.or_zero,
          Nat.or_self, Nat.sub_zero, Nat.sub_self]
        rw [ih bs hlen' has hbs]
        have hbeq : beVal W (a :: as) < beVal W (a :: bs) ↔ beVal W as < beVal W bs := by
          simp only [beVal, hlen']
          exact Nat.add_lt_add_iff_left
        have hbeq2 : beVal W (a :: bs) < beVal W (a :: as) ↔ beVal W bs < beVal W as := by
          simp only [beVal, hlen']
          exact Nat.add_lt_add_iff_left
        rw [Prod.mk.injEq]
        constructor
        · rcases (by omega : Xneg = 0 ∨ Xneg = 1) with h0 | h0 <;> subst h0
          · rw [if_pos rfl, if_pos rfl]
            exact if_congr hbeq.symm rfl rfl
          · rw [if_neg one_ne_zero, if_neg one_ne_zero]
            exact if_congr hbeq2.symm rfl rfl
        · simp
      · -- b < a: decided at this limb
        rw [if_pos h, if_neg (show ¬ a < b from by omega)]
        have hv : beVal W (b :: bs) < beVal W (a :: as) := beVal_head_lt h hlen'.symm hbs
        have hne : (a :: as) ≠ (b :: bs) := by
          intro heq
          rw [List.cons.injEq] at heq
          exact absurd heq.1 (by omega)
        rcases (by omega : Xneg = 0 ∨ Xneg = 1) with h0 | h0 <;> subst h0
        · simp only [Nat.zero_and, Nat.and_zero, Nat.and_self, Nat.zero_or, Nat.or_zero,
            Nat.or_self, Nat.sub_zero, Nat.sub_self]
          rw [lt_loop_done hW as bs 0 has hbs]
          have hnv : ¬ beVal W (a :: as) < beVal W (b :: bs) := by omega
          simp [hnv, hne]
        · simp only [Nat.zero_and, Nat.and_zero, Nat.and_self, Nat.zero_or, Nat.or_zero,
            Nat.or_self, Nat.sub_zero, Nat.sub_self]
          rw [lt_loop_done hW as bs 1 has hbs]
          simp [hv, hne]

/-! ### Claim C7: mbedtls_mpi_lt_mpi_ct -/

/-- C7: `mbedtls_mpi_lt_mpi_ct` returns the bad-input error iff the limb
counts differ; otherwise it returns 0 and sets `*ret` to 1 exactly when `X`
is numerically smaller than `Y` as signed big integers (negative operand
smaller when signs differ, limb comparison reversed when both negative).
The representation invariants of the bignum collaborator are assumed:
`s ∈ {1, -1}`, `p` holds exactly `n` limbs below `2^W`, and zero has
sign 1. -/
theorem C7_lt_mpi_ct (W : ℕ) (X Y : mbedtls_mpi) (hW : 0 < W)
    (hXl : X.p.length = X.n) (hYl : Y.p.length = Y.n)
    (hXb : ∀ x ∈ X.p, x < 2 ^ W) (hYb : ∀ x ∈ Y.p, x < 2 ^ W)
    (hXs : X.s = 1 ∨ X.s = -1) (hYs : Y.s = 1 ∨ Y.s = -1)
    (hX0 : leVal W X.p = 0 → X.s = 1) (hY0 : leVal W Y.p = 0 → Y.s = 1) :
    (X.n ≠ Y.n → mbedtls_mpi_lt_mpi_ct W X Y = (MBEDTLS_ERR_MPI_BAD_INPUT_DATA, none)) ∧
      (X.n = Y.n → mbedtls_mpi_lt_mpi_ct W X Y =
        (0, some (if mpiVal W X < mpiVal W Y then 1 else 0))) := by
  constructor
  · intro h
    unfold mbedtls_mpi_lt_mpi_ct
    rw [if_pos h]
  · intro h
    unfold mbedtls_mpi_lt_mpi_ct
    rw [if_neg (show ¬ X.n ≠ Y.n from fun hh => hh h)]
    have hl1 : (Int.land 1 2).toNat >>> 1 = 0 := by decide
    have hldiff : Nat.ldiff 2 0 = 2 := by
      apply Nat.eq_of_testBit_eq
      intro i
      rw [Nat.testBit_ldiff]
      simp [Nat.zero_testBit]
    have hlm : (Int.land (-1) 2).toNat >>> 1 = 1 := by
      rw [show Int.land (-1) 2 = ((Nat.ldiff 2 0 : ℕ) : ℤ) from by
        rw [show (-1 : ℤ) = Int.negSucc 0 from rfl]
        rfl]
      rw [hldiff]
      decide
    have hrevlen : X.p.reverse.length = Y.p.reverse.length := by
      rw [List.length_reverse, List.length_reverse, hXl, hYl, h]
    have hXrb : ∀ x ∈ X.p.reverse, x < 2 ^ W := fun x hx => hXb x (List.mem_reverse.1 hx)
    have hYrb : ∀ x ∈ Y.p.reverse, x < 2 ^ W := fun x hx => hYb x (List.mem_reverse.1 hx)
    rcases hXs with hx1 | hx1 <;> rcases hYs with hy1 | hy1
    · -- both positive
      rw [hx1, hy1, hl1]
      simp only [Nat.xor_self, Nat.zero_and]
      rw [lt_loop_main hW (by omega) X.p.reverse Y.p.reverse hrevlen hXrb hYrb]
      simp only [beVal_reverse, if_pos rfl]
      simp [mpiVal, hx1, hy1, Nat.cast_lt]
    · -- X positive, Y negative: X < Y is false
      rw [hx1, hy1, hl1, hlm]
      simp only [Nat.zero_xor, Nat.and_zero]
      rw [lt_loop_done hW X.p.reverse Y.p.reverse 0 hXrb hYrb]
      have hy0 : leVal W Y.p ≠ 0 := by
        intro hz
        have h1 := hY0 hz
        rw [h1] at hy1
        norm_num at hy1
      have hcmp : ¬ (mpiVal W X < mpiVal W Y) := by
        simp only [mpiVal, hx1, hy1, one_mul, neg_mul, neg_one_mul]
        have : (0 : ℤ) < leVal W Y.p := by
          have := Nat.pos_of_ne_zero hy0
          exact_mod_cast this
        have h2 : (0 : ℤ) ≤ leVal W X.p := by positivity
        omega
      rw [if_neg hcmp]
    · -- X negative, Y positive: X < Y is true
      rw [hx1, hy1, hl1, hlm]
      simp only [Nat.xor_zero, Nat.and_self]
      rw [lt_loop_done hW X.p.reverse Y.p.reverse 1 hXrb hYrb]
      have hx0 : leVal W X.p ≠ 0 := by
        intro hz
        have h1 := hX0 hz
        rw [h1] at hx1
        norm_num at hx1
      have hcmp : mpiVal W X < mpiVal W Y := by
        simp only [mpiVal, hx1, hy1, one_mul, neg_mul, neg_one_mul]
        have : (0 : ℤ) < leVal W X.p := by
          have := Nat.pos_of_ne_zero hx0
          exact_mod_cast this
        have h2 : (0 : ℤ) ≤ leVal W Y.p := by positivity
        omega
      rw [if_pos hcmp]
    · -- both negative: comparison reversed
      rw [hx1, hy1, hlm]
      simp only [Nat.xor_self, Nat.zero_and]
      rw [lt_loop_main hW (by omega) X.p.reverse Y.p.reverse hrevlen hXrb hYrb]
      simp only [beVal_reverse, if_neg one_ne_zero]
      have hiff : (mpiVal W X < mpiVal W Y) ↔ leVal W Y.p < leVal W X.p := by
        simp only [mpiVal, hx1, hy1, neg_mul, one_mul]
        omega
      simp only [Prod.mk.injEq, Option.some.injEq, true_and]
      rw [if_congr hiff.symm rfl rfl]

/-- C7 witness: the theorem applied at `W = 8` to `X = 3`, `Y = 5`
(single-limb, both positive). -/
theorem C7_witness :
    (0 : ℕ) < 8 ∧ (mbedtls_mpi.mk 1 1 [3]).p.length = (mbedtls_mpi.mk 1 1 [3]).n ∧
      (mbedtls_mpi.mk 1 1 [5]).p.length = (mbedtls_mpi.mk 1 1 [5]).n ∧
      (∀ x ∈ (mbedtls_mpi.mk 1 1 [3]).p, x < 2 ^ 8) ∧
      (∀ x ∈ (mbedtls_mpi.mk 1 1 [5]).p, x < 2 ^ 8) ∧
      ((mbedtls_mpi.mk 1 1 [3]).s = 1 ∨ (mbedtls_mpi.mk 1 1 [3]).s = -1) ∧
      ((mbedtls_mpi.mk 1 1 [5]).s = 1 ∨ (mbedtls_mpi.mk 1 1 [5]).s = -1) ∧
      (leVal 8 (mbedtls_mpi.mk 1 1 [3]).p = 0 → (mbedtls_mpi.mk 1 1 [3]).s = 1) ∧
      (leVal 8 (mbedtls_mpi.mk 1 1 [5]).p = 0 → (mbedtls_mpi.mk 1 1 [5]).s = 1) ∧
      (((mbedtls_mpi.mk 1 1 [3]).n ≠ (mbedtls_mpi.mk 1 1 [5]).n →
          mbedtls_mpi_lt_mpi_ct 8 (mbedtls_mpi.mk 1 1 [3]) (mbedtls_mpi.mk 1 1 [5]) =
            (MBEDTLS_ERR_MPI_BAD_INPUT_DATA, none)) ∧
        ((mbedtls_mpi.mk 1 1 [3]).n = (mbedtls_mpi.mk 1 1 [5]).n →
          mbedtls_mpi_lt_mpi_ct 8 (mbedtls_mpi.mk 1 1 [3]) (mbedtls_mpi.mk 1 1 [5]) =
            (0, some (if mpiVal 8 (mbedtls_mpi.mk 1 1 [3]) < mpiVal 8 (mbedtls_mpi.mk 1 1 [5])
              then 1 else 0)))) :=
  ⟨by decide, by decide, by decide, by decide, by decide, by decide, by decide, by decide,
    by decide,
    C7_lt_mpi_ct 8 (mbedtls_mpi.mk 1 1 [3]) (mbedtls_mpi.mk 1 1 [5]) (by decide) (by decide)
      (by decide) (by decide) (by decide) (by decide) (by decide) (by decide) (by decide)⟩

/-! ### Claim C8: mbedtls_mpi_safe_cond_assign -/

/-- Modelled from the spec: `mbedtls_mpi_grow` (bignum.c is not among the
sources) ensures at least `n` limb slots, zero-extending. -/
def mbedtls_mpi_grow (X : mbedtls_mpi) (n : ℕ) : mbedtls_mpi :=
  if X.n < n then ⟨X.s, n, X.p ++ List.replicate (n - X.n) 0⟩ else X

/-- Modelled from the spec: `mbedtls_mpi_core_cond_assign` (bignum_core.c is
not among the sources) performs a per-limb constant-time conditional assign
across `n` limbs, `dest[i] = (src[i] & mask) | (dest[i] & ~mask)` with the
all-ones/all-zeros mask built from the condition. -/
def mbedtls_mpi_core_cond_assign (W : ℕ) (dest src : List ℕ) (n : ℕ) (condition : ℕ) :
    List ℕ :=
  let mask := mbedtls_ct_mpi_uint_mask W condition
  (List.zipWith (fun d s0 => (s0 &&& mask) ||| (d &&& (mask ^^^ (2 ^ W - 1))))
    (dest.take n) (src.take n)) ++ dest.drop n

/-- Two's-complement encoding of a C `int` into a `W`-bit unsigned word. -/
def i2u (W : ℕ) (s : ℤ) : ℕ := (s % (2 ^ W : ℤ)).toNat

/-- Decoding of a `W`-bit unsigned word back to a signed C `int`. -/
def u2i (W : ℕ) (v : ℕ) : ℤ := if v < 2 ^ (W - 1) then (v : ℤ) else (v : ℤ) - 2 ^ W

/-- `mbedtls_mpi_safe_cond_assign` from the source: grow `X` to `Y.n` limbs,
select the sign through `mbedtls_ct_uint_if` (on the two's-complement
encoding of the C `int`), conditionally assign the first `Y.n` limbs, and
mask the higher limbs with `~limb_mask`. -/
def mbedtls_mpi_safe_cond_assign (W : ℕ) (X Y : mbedtls_mpi) (assign : ℕ) : mbedtls_mpi :=
  let limb_mask := mbedtls_ct_mpi_uint_mask W assign
  let X1 := mbedtls_mpi_grow X Y.n
  let s1 := u2i W (mbedtls_ct_uint_if W assign (i2u W Y.s) (i2u W X1.s))
  let p1 := mbedtls_mpi_core_cond_assign W X1.p Y.p Y.n assign
  let p2 := p1.take Y.n ++ (p1.drop Y.n).map (fun v => v &&& (limb_mask ^^^ (2 ^ W - 1)))
  ⟨s1, X1.n, p2⟩

lemma two_le_two_pow_int {W : ℕ} (hW : 2 ≤ W) : (2 : ℤ) ≤ 2 ^ W := by
  calc (2 : ℤ) = 2 ^ 1 := by norm_num
    _ ≤ 2 ^ W := by
      apply pow_le_pow_right
      · norm_num
      · omega

lemma i2u_u2i_one {W : ℕ} (hW : 2 ≤ W) : u2i W (i2u W 1) = 1 := by
  have h2 := two_le_two_pow_int hW
  have h1 : i2u W 1 = 1 := by
    unfold i2u
    rw [Int.emod_eq_of_lt (by norm_num) (by omega)]
    rfl
  rw [h1]
  unfold u2i
  rw [if_pos (by
    have h3 : (2 : ℕ) ^ 1 ≤ 2 ^ (W - 1) := Nat.pow_le_pow_right (by norm_num) (by omega)
    omega)]
  rfl

lemma i2u_u2i_neg_one {W : ℕ} (hW : 2 ≤ W) : u2i W (i2u W (-1)) = -1 := by
  have h2 := two_le_two_pow_int hW
  have h1 : i2u W (-1) = 2 ^ W - 1 := by
    unfold i2u
    have he : (-1 : ℤ) % 2 ^ W = 2 ^ W - 1 := by
      have hrw : (-1 : ℤ) = (2 ^ W - 1) + 2 ^ W * (-1) := by ring
      rw [hrw, Int.add_mul_emod_self_left, Int.emod_eq_of_lt (by omega) (by omega)]
    rw [he]
    have hn : (1 : ℕ) ≤ 2 ^ W := Nat.one_le_two_pow
    have hc : ((2 : ℤ) ^ W - 1) = ((2 ^ W - 1 : ℕ) : ℤ) := by
      rw [Nat.cast_sub hn]
      push_cast
      ring
    rw [hc, Int.toNat_natCast]
  rw [h1]
  unfold u2i
  have h2n : (2 : ℕ) ^ W = 2 ^ (W - 1) * 2 := by
    rw [← Nat.pow_succ]
    congr 1
    omega
  rw [if_neg (by
    have h3 := Nat.two_pow_pos (W - 1)
    omega)]
  have hn : (1 : ℕ) ≤ 2 ^ W := Nat.one_le_two_pow
  rw [Nat.cast_sub hn]
  push_cast
  ring

lemma mpi_uint_mask_zero (W : ℕ) : mbedtls_ct_mpi_uint_mask W 0 = 0 := ct_mask_word_zero W

lemma mpi_uint_mask_ones {W v : ℕ} (hv0 : 0 < v) (hv : v < 2 ^ W) :
    mbedtls_ct_mpi_uint_mask W v = 2 ^ W - 1 := ct_mask_word_ones hv0 hv

lemma i2u_lt {W : ℕ} (s : ℤ) : i2u W s < 2 ^ W := by
  unfold i2u
  have hp : (0 : ℤ) < 2 ^ W := by positivity
  have h1 : 0 ≤ s % 2 ^ W := Int.emod_nonneg s (by omega)
  have h2 : s % 2 ^ W < 2 ^ W := Int.emod_lt_of_pos s hp
  have hc : ((2 ^ W : ℕ) : ℤ) = (2 : ℤ) ^ W := by push_cast; ring
  omega

lemma zipWith_sel_ones {W : ℕ} : ∀ (l1 l2 : List ℕ), l1.length = l2.length →
    (∀ x ∈ l2, x < 2 ^ W) →
    List.zipWith (fun d s0 => (s0 &&& (2 ^ W - 1)) ||| (d &&& ((2 ^ W - 1) ^^^ (2 ^ W - 1))))
      l1 l2 = l2 := by
  intro l1
  induction l1 with
  | nil =>
    intro l2 hlen _
    cases l2 with
    | nil => rfl
    | cons s0 t2 => simp at hlen
  | cons d t ih =>
    intro l2 hlen hb
    cases l2 with
    | nil => simp at hlen
    | cons s0 t2 =>
      simp only [List.zipWith_cons_cons]
      rw [ih t2 (by simpa using hlen) (fun x hx => hb x (List.mem_cons_of_mem s0 hx)),
        Nat.xor_self, Nat.and_zero, Nat.or_zero,
        Nat.and_pow_two_sub_one_of_lt_two_pow (hb s0 (by simp))]

lemma zipWith_sel_zero {W : ℕ} : ∀ (l1 l2 : List ℕ), l1.length = l2.length →
    (∀ x ∈ l1, x < 2 ^ W) →
    List.zipWith (fun d s0 => (s0 &&& 0) ||| (d &&& (0 ^^^ (2 ^ W - 1)))) l1 l2 = l1 := by
  intro l1
  induction l1 with
  | nil => intro l2 _ _; rfl
  | cons d t ih =>
    intro l2 hlen hb
    cases l2 with
    | nil => simp at hlen
    | cons s0 t2 =>
      simp only [List.zipWith_cons_cons]
      rw [ih t2 (by simpa using hlen) (fun x hx => hb x (List.mem_cons_of_mem d hx)),
        Nat.and_zero, Nat.zero_or, Nat.zero_xor,
        Nat.and_pow_two_sub_one_of_lt_two_pow (hb d (by simp))]

/-- C8: `mbedtls_mpi_safe_cond_assign` with `assign = 1` makes `X`
numerically equal to `Y` (sign and limbs copied, higher limbs zeroed); with
`assign = 0` it leaves `X`'s sign and every previously populated limb
bit-identical.  The grow and per-limb assign of the bignum collaborator are
modelled from the spec. -/
theorem C8_safe_cond_assign (W : ℕ) (X Y : mbedtls_mpi) (assign : ℕ) (hW : 2 ≤ W)
    (hXl : X.p.length = X.n) (hYl : Y.p.length = Y.n)
    (hXb : ∀ x ∈ X.p, x < 2 ^ W) (hYb : ∀ x ∈ Y.p, x < 2 ^ W)
    (hXs : X.s = 1 ∨ X.s = -1) (hYs : Y.s = 1 ∨ Y.s = -1) :
    (assign = 1 →
      (mbedtls_mpi_safe_cond_assign W X Y assign).s = Y.s ∧
        (mbedtls_mpi_safe_cond_assign W X Y assign).p.take Y.n = Y.p ∧
        (∀ v ∈ (mbedtls_mpi_safe_cond_assign W X Y assign).p.drop Y.n, v = 0) ∧
        mpiVal W (mbedtls_mpi_safe_cond_assign W X Y assign) = mpiVal W Y) ∧
    (assign = 0 →
      (mbedtls_mpi_safe_cond_assign W X Y assign).s = X.s ∧
        (mbedtls_mpi_safe_cond_assign W X Y assign).p.take X.n = X.p) := by
  have hWpos : 0 < W := by omega
  have h4 : (4 : ℕ) ≤ 2 ^ W := by
    calc (4 : ℕ) = 2 ^ 2 := by norm_num
      _ ≤ 2 ^ W := Nat.pow_le_pow_right (by norm_num) hW
  have hX1s : (mbedtls_mpi_grow X Y.n).s = X.s := by
    unfold mbedtls_mpi_grow
    split_ifs <;> rfl
  have hX1len : (mbedtls_mpi_grow X Y.n).p.length = (mbedtls_mpi_grow X Y.n).n := by
    unfold mbedtls_mpi_grow
    split_ifs with hg
    · simp only [List.length_append, List.length_replicate, hXl]
      omega
    · exact hXl
  have hX1ge : Y.n ≤ (mbedtls_mpi_grow X Y.n).n := by
    unfold mbedtls_mpi_grow
    split_ifs with hg
    · exact le_refl _
    · omega
  have hX1take : (mbedtls_mpi_grow X Y.n).p.take X.n = X.p := by
    unfold mbedtls_mpi_grow
    split_ifs with hg
    · exact List.take_left' hXl
    · exact List.take_of_length_le (by omega)
  have hX1b : ∀ x ∈ (mbedtls_mpi_grow X Y.n).p, x < 2 ^ W := by
    unfold mbedtls_mpi_grow
    split_ifs with hg
    · intro x hx
      rcases List.mem_append.1 hx with hx | hx
      · exact hXb x hx
      · rw [List.eq_of_mem_replicate hx]
        exact Nat.two_pow_pos W
    · exact hXb
  have htake1len : ((mbedtls_mpi_grow X Y.n).p.take Y.n).length = Y.n := by
    rw [List.length_take, hX1len]
    omega
  constructor
  · intro ha
    subst ha
    simp only [mbedtls_mpi_safe_cond_assign, mbedtls_mpi_core_cond_assign]
    rw [mpi_uint_mask_ones (by norm_num) (by omega)]
    rw [uint_if_eq (by omega) (i2u_lt Y.s) (i2u_lt (mbedtls_mpi_grow X Y.n).s),
      if_neg one_ne_zero]
    have hYtake : Y.p.take Y.n = Y.p := List.take_of_length_le (by omega)
    rw [hYtake, zipWith_sel_ones _ Y.p (by rw [htake1len, hYl]) hYb]
    have hs1 : u2i W (i2u W Y.s) = Y.s := by
      rcases hYs with h | h <;> rw [h]
      · exact i2u_u2i_one hW
      · exact i2u_u2i_neg_one hW
    rw [hs1]
    have hp2 : (Y.p ++ (mbedtls_mpi_grow X Y.n).p.drop Y.n).take Y.n = Y.p :=
      List.take_left' hYl
    have hp3 : (Y.p ++ (mbedtls_mpi_grow X Y.n).p.drop Y.n).drop Y.n =
        (mbedtls_mpi_grow X Y.n).p.drop Y.n := List.drop_left' hYl
    rw [hp2, hp3]
    simp only [Nat.xor_self, Nat.and_zero, List.map_const']
    refine ⟨trivial, ?_, ?_, ?_⟩
    · exact List.take_left' hYl
    · intro v hv
      rw [List.drop_left' hYl] at hv
      exact List.eq_of_mem_replicate hv
    · simp only [mpiVal]
      congr 1
      exact congrArg (fun n : ℕ => (n : ℤ)) (leVal_append_zeros W Y.p _)
  · intro ha
    subst ha
    simp only [mbedtls_mpi_safe_cond_assign, mbedtls_mpi_core_cond_assign]
    rw [mpi_uint_mask_zero]
    rw [uint_if_eq (Nat.two_pow_pos W) (i2u_lt Y.s) (i2u_lt (mbedtls_mpi_grow X Y.n).s),
      if_pos rfl]
    have hYtake : Y.p.take Y.n = Y.p := List.take_of_length_le (by omega)
    rw [hYtake, zipWith_sel_zero _ Y.p (by rw [htake1len, hYl]) (fun x hx =>
      hX1b x (List.mem_of_mem_take hx))]
    have hs1 : u2i W (i2u W (mbedtls_mpi_grow X Y.n).s) = X.s := by
      rw [hX1s]
      rcases hXs with h | h <;> rw [h]
      · exact i2u_u2i_one hW
      · exact i2u_u2i_neg_one hW
    rw [List.take_append_drop]
    have hmap : (((mbedtls_mpi_grow X Y.n).p).drop Y.n).map
        (fun v => v &&& (0 ^^^ (2 ^ W - 1))) = ((mbedtls_mpi_grow X Y.n).p).drop Y.n := by
      have h := List.map_congr_left (l := (mbedtls_mpi_grow X Y.n).p.drop Y.n)
        (f := fun v => v &&& (0 ^^^ (2 ^ W - 1))) (g := fun v => v)
        (fun a hx => by
          rw [Nat.zero_xor]
          exact Nat.and_pow_two_sub_one_of_lt_two_pow (hX1b a (List.mem_of_mem_drop hx)))
      rw [h, List.map_id']
    rw [hmap, List.take_append_drop]
    exact ⟨hs1, hX1take⟩

/-- C8 witness: the theorem applied at `W = 8`, `X = 0x0907` (2 limbs),
`Y = -5` (1 limb), `assign = 1`. -/
theorem C8_witness :
    (2 : ℕ) ≤ 8 ∧
      (mbedtls_mpi.mk 1 2 [7, 9]).p.length = (mbedtls_mpi.mk 1 2 [7, 9]).n ∧
      (mbedtls_mpi.mk (-1) 1 [5]).p.length = (mbedtls_mpi.mk (-1) 1 [5]).n ∧
      (∀ x ∈ (mbedtls_mpi.mk 1 2 [7, 9]).p, x < 2 ^ 8) ∧
      (∀ x ∈ (mbedtls_mpi.mk (-1) 1 [5]).p, x < 2 ^ 8) ∧
      ((mbedtls_mpi.mk 1 2 [7, 9]).s = 1 ∨ (mbedtls_mpi.mk 1 2 [7, 9]).s = -1) ∧
      ((mbedtls_mpi.mk (-1) 1 [5]).s = 1 ∨ (mbedtls_mpi.mk (-1) 1 [5]).s = -1) ∧
      (((1 : ℕ) = 1 →
        (mbedtls_mpi_safe_cond_assign 8 (mbedtls_mpi.mk 1 2 [7, 9])
            (mbedtls_mpi.mk (-1) 1 [5]) 1).s = (mbedtls_mpi.mk (-1) 1 [5]).s ∧
          (mbedtls_mpi_safe_cond_assign 8 (mbedtls_mpi.mk 1 2 [7, 9])
            (mbedtls_mpi.mk (-1) 1 [5]) 1).p.take (mbedtls_mpi.mk (-1) 1 [5]).n =
              (mbedtls_mpi.mk (-1) 1 [5]).p ∧
          (∀ v ∈ (mbedtls_mpi_safe_cond_assign 8 (mbedtls_mpi.mk 1 2 [7, 9])
            (mbedtls_mpi.mk (-1) 1 [5]) 1).p.drop (mbedtls_mpi.mk (-1) 1 [5]).n, v = 0) ∧
          mpiVal 8 (mbedtls_mpi_safe_cond_assign 8 (mbedtls_mpi.mk 1 2 [7, 9])
            (mbedtls_mpi.mk (-1) 1 [5]) 1) = mpiVal 8 (mbedtls_mpi.mk (-1) 1 [5])) ∧
        ((1 : ℕ) = 0 →
          (mbedtls_mpi_safe_cond_assign 8 (mbedtls_mpi.mk 1 2 [7, 9])
            (mbedtls_mpi.mk (-1) 1 [5]) 1).s = (mbedtls_mpi.mk 1 2 [7, 9]).s ∧
          (mbedtls_mpi_safe_cond_assign 8 (mbedtls_mpi.mk 1 2 [7, 9])
            (mbedtls_mpi.mk (-1) 1 [5]) 1).p.take (mbedtls_mpi.mk 1 2 [7, 9]).n =
              (mbedtls_mpi.mk 1 2 [7, 9]).p)) :=
  ⟨by decide, by decide, by decide, by decide, by decide, by decide, by decide,
    C8_safe_cond_assign 8 (mbedtls_mpi.mk 1 2 [7, 9]) (mbedtls_mpi.mk (-1) 1 [5]) 1
      (by decide) (by decide) (by decide) (by decide) (by decide) (by decide) (by decide)⟩
